import Mathlib

/-!
# Analog acquisition core of `radio/src/hal/adc_driver.cpp`

A shallow embedding of the ADC hardware-abstraction layer: backend
registration (`adcInit`), the conversion step (`adcSingleRead`), the
acquisition function `adcRead`, `getAnalogValue`, the jitter filter and the
multipos calibration mapper of `getADC`, and `getBatteryVoltage`.

Machine integers are natural numbers; every store into a `uint32_t` is
reduced modulo `2^32`, into a `uint16_t` modulo `2^16` and into a `uint8_t`
modulo `2^8`. Constants and predicates that live in headers outside this
file (`JITTER_ALPHA`, `ANALOG_SCALE`, `RESX`, `NUM_ANALOGS`, the override
enumerators, the `IS_POT...` predicates) are fields of `AdcConfig`.
-/

namespace AdcDriver

/-! ## Data model -/

/-- Modelled from the spec: the type `StepsCalibData` is declared outside this
file. Per the spec a calibration profile is an ordered sequence of threshold
steps plus a count; `steps i` is `calib->steps[i]`. -/
structure StepsCalibData where
  /-- Number of thresholds, `calib->count`. -/
  count : Nat
  /-- Threshold array, `calib->steps[i]`. -/
  steps : Nat → Nat

/-- Constants and predicates supplied by board and model headers. -/
structure AdcConfig where
  /-- Filter divisor `JITTER_ALPHA`. -/
  JITTER_ALPHA : Nat
  /-- Working-resolution exponent `ANALOG_SCALE`. -/
  ANALOG_SCALE : Nat
  /-- Half of the reported range, `RESX`. -/
  RESX : Nat
  /-- Enumerator `OVERRIDE_GLOBAL` of the per-model override. -/
  OVERRIDE_GLOBAL : Nat
  /-- Enumerator `OVERRIDE_ON` of the per-model override. -/
  OVERRIDE_ON : Nat
  /-- Number of analog channels, `NUM_ANALOGS`. -/
  NUM_ANALOGS : Nat
  /-- Predicate `IS_POT(index)`. -/
  IS_POT : Nat → Bool
  /-- Predicate `IS_POT_SLIDER_AVAILABLE(index)`. -/
  IS_POT_SLIDER_AVAILABLE : Nat → Bool
  /-- Predicate `IS_POT_MULTIPOS(x)`. -/
  IS_POT_MULTIPOS : Nat → Bool
  /-- Predicate `IS_MULTIPOS_CALIBRATED(calib)`. -/
  IS_MULTIPOS_CALIBRATED : StepsCalibData → Bool

/-- The settings `getADC` reads from `g_model` and `g_eeGeneral`. -/
structure Settings where
  /-- Per-model override `g_model.jitterFilter`. -/
  jitterFilter : Nat
  /-- Radio setting `g_eeGeneral.noJitterFilter`. -/
  noJitterFilter : Bool
  /-- Calibration records `g_eeGeneral.calib[x]`, read as `StepsCalibData`. -/
  calib : Nat → StepsCalibData

/-- Reduction of a value stored into a `uint32_t`. -/
def u32 (n : Nat) : Nat := n % 2 ^ 32

/-- Reduction of a value stored into a `uint16_t`. -/
def u16 (n : Nat) : Nat := n % 2 ^ 16

/-- Reduction of a value stored into a `uint8_t`. -/
def u8 (n : Nat) : Nat := n % 2 ^ 8

/-- Macro `#define ANALOG_MULTIPLIER (1<<ANALOG_SCALE)`. -/
def ANALOG_MULTIPLIER (c : AdcConfig) : Nat := 1 <<< c.ANALOG_SCALE

/-- Macro `#define ANA_FILT(chan) (s_anaFilt[chan] / (JITTER_ALPHA * ANALOG_MULTIPLIER))`,
as a function of the accumulator of the channel. -/
def ANA_FILT (c : AdcConfig) (acc : Nat) : Nat :=
  acc / (c.JITTER_ALPHA * ANALOG_MULTIPLIER c)

/-- Function `uint16_t anaIn(uint8_t chan)`, which returns `ANA_FILT(chan)`. -/
def anaIn (c : AdcConfig) (s_anaFilt : Nat → Nat) (chan : Nat) : Nat :=
  u16 (ANA_FILT c (s_anaFilt chan))

/-- The compile-time guard
`#if (JITTER_ALPHA * ANALOG_MULTIPLIER > 32) #error ...`: a configuration
builds only when the product is at most 32. -/
def staticCheck (c : AdcConfig) : Prop :=
  c.JITTER_ALPHA * ANALOG_MULTIPLIER c ≤ 32

instance (c : AdcConfig) : Decidable (staticCheck c) := by
  unfold staticCheck; infer_instance

/-- Function `getAnalogValue(index)`: zero for a pot that is not available, the raw
value `adcValues[index]` otherwise. -/
def getAnalogValue (c : AdcConfig) (adcValues : Nat → Nat) (index : Nat) : Nat :=
  if c.IS_POT index && !c.IS_POT_SLIDER_AVAILABLE index then 0 else adcValues index

/-! ## Jitter filter of `getADC` -/

/-- Statement `uint32_t previous = s_anaFilt[x] / JITTER_ALPHA;` -/
def previous (c : AdcConfig) (acc : Nat) : Nat := acc / c.JITTER_ALPHA

/-- Statement `uint32_t diff = (v > previous) ? (v - previous) : (previous - v);` -/
def diff (c : AdcConfig) (acc v : Nat) : Nat :=
  if v > previous c acc then v - previous c acc else previous c acc - v

/-- The resolution of `useJitterFilter` from the model override
`g_model.jitterFilter` and the radio setting `g_eeGeneral.noJitterFilter`. -/
def useJitterFilter (c : AdcConfig) (jitterFilter : Nat) (noJitterFilter : Bool) : Bool :=
  if jitterFilter = c.OVERRIDE_GLOBAL then !noJitterFilter
  else if jitterFilter = c.OVERRIDE_ON then true else false

/-- The filter statement of `getADC` for one channel: the new content of
`s_anaFilt[x]` from its old content `acc`, the normalized reading `v` and
the resolved flag.
```
if (useJitterFilter && diff < (10*ANALOG_MULTIPLIER))
  s_anaFilt[x] = (s_anaFilt[x] - previous) + v;
else
  s_anaFilt[x] = v * JITTER_ALPHA;
``` -/
def jitterStep (c : AdcConfig) (flag : Bool) (acc v : Nat) : Nat :=
  if flag && decide (diff c acc v < 10 * ANALOG_MULTIPLIER c) then
    u32 (u32 (acc - previous c acc) + v)
  else
    u32 (v * c.JITTER_ALPHA)

/-- The value the filter reports, `s_anaFilt[x] / JITTER_ALPHA`. -/
def filtered (c : AdcConfig) (acc : Nat) : Nat := acc / c.JITTER_ALPHA

/-- Successive filter steps of one channel over the readings `vs`. -/
def jitterRun (c : AdcConfig) (flag : Bool) (acc : Nat) (vs : List Nat) : Nat :=
  vs.foldl (jitterStep c flag) acc

/-- The noise band of half-width `10 * ANALOG_MULTIPLIER - 1` around `center`. -/
def inBand (c : AdcConfig) (center v : Nat) : Prop :=
  center - (10 * ANALOG_MULTIPLIER c - 1) ≤ v ∧ v ≤ center + (10 * ANALOG_MULTIPLIER c - 1)

instance (c : AdcConfig) (center v : Nat) : Decidable (inBand c center v) := by
  unfold inBand; infer_instance

/-! ## Calibration mapper of `getADC` -/

/-- Macro `#define ANAFILT_MAX (2 * RESX * JITTER_ALPHA * ANALOG_MULTIPLIER - 1)`, an `int`
expression, as it is used: converted to `uint32_t`. -/
def ANAFILT_MAX (c : AdcConfig) : Nat :=
  ((((2 * c.RESX * c.JITTER_ALPHA * ANALOG_MULTIPLIER c : Nat) : Int) - 1) % 2 ^ 32).toNat

/-- The threshold loop of the mapper, with `n` iterations left at index `i`;
`acc` is the content of `s_anaFilt[x]` on entry.
```
for (uint32_t i=0; i<calib->count; i++) {
  if (vShifted < calib->steps[i]) {
    s_anaFilt[x] = (i * ANAFILT_MAX) / calib->count;
    break;
  }
}
``` -/
def multiposLoop (c : AdcConfig) (calib : StepsCalibData) (vShifted : Nat) :
    Nat → Nat → Nat → Nat
  | 0, _, acc => acc
  | n + 1, i, acc =>
    if vShifted < calib.steps i then u32 (i * ANAFILT_MAX c) / calib.count
    else multiposLoop c calib vShifted n (i + 1) acc

/-- The index at which the threshold loop stops, with `n` iterations left at
index `i`: the first index whose threshold exceeds `vShifted`, or the index
reached when the loop runs out. -/
def multiposIndex (calib : StepsCalibData) (vShifted : Nat) : Nat → Nat → Nat
  | 0, i => i
  | n + 1, i =>
    if vShifted < calib.steps i then i else multiposIndex calib vShifted n (i + 1)

/-- Statement `uint8_t vShifted = ANA_FILT(x) >> 4;` -/
def vShifted (c : AdcConfig) (acc : Nat) : Nat := u8 (ANA_FILT c acc >>> 4)

/-- The body of the mapper for a calibrated multipos channel:
```
uint8_t vShifted = ANA_FILT(x) >> 4;
s_anaFilt[x] = ANAFILT_MAX;
for (...) ...
``` -/
def multiposSnap (c : AdcConfig) (calib : StepsCalibData) (acc : Nat) : Nat :=
  multiposLoop c calib (vShifted c acc) calib.count 0 (ANAFILT_MAX c)

/-- The step index the mapper chooses for the accumulator `acc`
(`calib.count` when no threshold exceeds the reduced value). -/
def stepIndex (c : AdcConfig) (calib : StepsCalibData) (acc : Nat) : Nat :=
  multiposIndex calib (vShifted c acc) calib.count 0

/-- The mapper of `getADC` on channel `x`:
`if (IS_POT_MULTIPOS(x) && IS_MULTIPOS_CALIBRATED(calib)) { ... }`. -/
def multiposMap (c : AdcConfig) (x : Nat) (calib : StepsCalibData) (acc : Nat) : Nat :=
  if c.IS_POT_MULTIPOS x && c.IS_MULTIPOS_CALIBRATED calib then multiposSnap c calib acc
  else acc

/-! ## One cycle of `getADC` -/

/-- Statement `v = getAnalogValue(x) >> (1 - ANALOG_SCALE);` (the shift amount is meaningful
for `ANALOG_SCALE` 0 or 1 only). -/
def normalized (c : AdcConfig) (raw : Nat) : Nat := raw >>> (1 - c.ANALOG_SCALE)

/-- The body of the channel loop of `getADC` for channel `x`: normalization, jitter
filter, calibration mapper. The reading comes from `getAnalogValue`, as in every build
without the `RADIO_FAMILY_T16`/`PCBNV14` gimbal block; the `JITTER_MEASURE` blocks only
feed diagnostics and are left out. -/
def getADC_channel (c : AdcConfig) (g : Settings) (adcValues : Nat → Nat) (x acc : Nat) : Nat :=
  multiposMap c x (g.calib x)
    (jitterStep c (useJitterFilter c g.jitterFilter g.noJitterFilter) acc
      (normalized c (getAnalogValue c adcValues x)))

/-- The channel loop `for (uint8_t x=0; x<NUM_ANALOGS; x++)` of `getADC` on the
accumulator array `s_anaFilt`, given the raw values left by `adcRead`. -/
def getADC (c : AdcConfig) (g : Settings) (adcValues : Nat → Nat) (s_anaFilt : Nat → Nat) :
    Nat → Nat :=
  (List.range c.NUM_ANALOGS).foldl
    (fun s x => Function.update s x (getADC_channel c g adcValues x (s x))) s_anaFilt

/-- Successive cycles of `getADC`, each with its settings and raw values. -/
def getADC_run (c : AdcConfig) (cycles : List (Settings × (Nat → Nat))) (s_anaFilt : Nat → Nat) :
    Nat → Nat :=
  cycles.foldl (fun s cy => getADC c cy.1 cy.2 s) s_anaFilt

/-- The normalized full-scale reading `4095 >> (1 - ANALOG_SCALE)`. -/
def fullScale (c : AdcConfig) : Nat := 4095 >>> (1 - c.ANALOG_SCALE)

/-! ## Backend registration and the conversion step -/

/-- Modelled from the spec: the type `etx_hal_adc_driver_t` is declared in
`adc_driver.h`, outside this file. Per the spec a backend is the capability set of
an optional `init() -> success`, an optional `start() -> success` and an optional
`wait()`; an absent operation is a null pointer. Operations act on the hardware
state `W`. -/
structure etx_hal_adc_driver_t (W : Type) where
  /-- Pointer `bool (*init)()`. -/
  init : Option (W → Bool × W)
  /-- Pointer `bool (*start_conversion)()`. -/
  start_conversion : Option (W → Bool × W)
  /-- Pointer `void (*wait_completion)()`. -/
  wait_completion : Option (W → W)

/-- Backend operations, as recorded in the call log. -/
inductive HalCall where
  | init
  | start_conversion
  | wait_completion
  deriving DecidableEq, Repr

/-- The state the registration and conversion functions act on: the active backend
`_hal_adc_driver`, the hardware state and the log of backend operations invoked. -/
structure HalState (W : Type) where
  /-- Global `const etx_hal_adc_driver_t* _hal_adc_driver`. -/
  _hal_adc_driver : Option (etx_hal_adc_driver_t W)
  /-- State of the hardware behind the backend. -/
  hw : W
  /-- Backend operations invoked so far, oldest first. -/
  calls : List HalCall

/-- Function `bool adcInit(const etx_hal_adc_driver_t* driver)`:
```
if (driver && (!driver->init || driver->init())) {
  _hal_adc_driver = driver;
  return true;
}
_hal_adc_driver = nullptr;
return false;
``` -/
def adcInit {W : Type} (driver : Option (etx_hal_adc_driver_t W)) (s : HalState W) :
    Bool × HalState W :=
  match driver with
  | none => (false, { s with _hal_adc_driver := none })
  | some d =>
    match d.init with
    | none => (true, { s with _hal_adc_driver := some d })
    | some f =>
      let r := f s.hw
      let s1 : HalState W := { s with hw := r.2, calls := s.calls ++ [HalCall.init] }
      if r.1 then (true, { s1 with _hal_adc_driver := some d })
      else (false, { s1 with _hal_adc_driver := none })

/-- Function `static bool adcSingleRead()`:
```
if (!_hal_adc_driver) return false;
if (_hal_adc_driver->start_conversion && !_hal_adc_driver->start_conversion())
  return false;
if (_hal_adc_driver->wait_completion) _hal_adc_driver->wait_completion();
return true;
``` -/
def adcSingleRead {W : Type} (s : HalState W) : Bool × HalState W :=
  match s._hal_adc_driver with
  | none => (false, s)
  | some d =>
    let started : Bool × HalState W :=
      match d.start_conversion with
      | none => (true, s)
      | some f =>
        ((f s.hw).1, { s with hw := (f s.hw).2, calls := s.calls ++ [HalCall.start_conversion] })
    if started.1 then
      match d.wait_completion with
      | none => (true, started.2)
      | some w =>
        (true, { started.2 with hw := w started.2.hw,
                                calls := started.2.calls ++ [HalCall.wait_completion] })
    else (false, started.2)

/-! ## The acquisition function `adcRead` -/

/-- Modelled from the spec: the board functions `isVBatBridgeEnabled` and
`disableVBatBridge` are outside this file. Per the spec the sampling driver disables
a transient measurement bridge if one was left enabled; the hardware state therefore
carries the raw-value array `adcValues` (written by the backend), the bridge flag and
the remaining device state. -/
structure AdcHw (D : Type) where
  /-- The raw-value array `uint16_t adcValues[NUM_ANALOGS]`. -/
  adcValues : Nat → Nat
  /-- Whether the measurement bridge is enabled. -/
  vbatBridge : Bool
  /-- Device state behind the backend. -/
  dev : D

/-- Modelled from the spec: the board function `isVBatBridgeEnabled()`, which is
outside this file, tells whether the measurement bridge was left enabled. -/
def isVBatBridgeEnabled {D : Type} (h : AdcHw D) : Bool := h.vbatBridge

/-- Modelled from the spec: the board function `disableVBatBridge()`, which is
outside this file, disables the measurement bridge. -/
def disableVBatBridge {D : Type} (h : AdcHw D) : AdcHw D := { h with vbatBridge := false }

/-- The PWM-stick part of a build: `NUM_PWMSTICKS`, the result of
`STICKS_PWM_ENABLED()` and the effect of `sticksPwmRead` on the raw-value array. -/
structure PwmSticks where
  /-- Constant `NUM_PWMSTICKS`. -/
  NUM_PWMSTICKS : Nat
  /-- Result of `STICKS_PWM_ENABLED()`. -/
  STICKS_PWM_ENABLED : Bool
  /-- Effect of `sticksPwmRead(adcValues)` on the array. -/
  sticksPwmRead : (Nat → Nat) → (Nat → Nat)

/-- Function `bool adcRead()`:
```
adcSingleRead();
if (isVBatBridgeEnabled()) disableVBatBridge();
#if NUM_PWMSTICKS > 0
if (STICKS_PWM_ENABLED()) sticksPwmRead(adcValues);
#endif
return true;
``` -/
def adcRead {D : Type} (p : PwmSticks) (s : HalState (AdcHw D)) :
    Bool × HalState (AdcHw D) :=
  let s1 : HalState (AdcHw D) := (adcSingleRead s).2
  let s2 : HalState (AdcHw D) :=
    if isVBatBridgeEnabled s1.hw then { s1 with hw := disableVBatBridge s1.hw } else s1
  let s3 : HalState (AdcHw D) :=
    if 0 < p.NUM_PWMSTICKS ∧ p.STICKS_PWM_ENABLED = true then
      { s2 with hw := { s2.hw with adcValues := p.sticksPwmRead s2.hw.adcValues } }
    else s2
  (true, s3)

/-! ## Battery voltage -/

/-- Board constants of the battery measurement: the channel `TX_VOLTAGE` and the
integer constants `BATT_SCALE`, `BATTERY_DIVIDER`, `VOLTAGE_DROP`. -/
structure BattConfig where
  /-- Channel index `TX_VOLTAGE`. -/
  TX_VOLTAGE : Nat
  /-- Constant `BATT_SCALE`. -/
  BATT_SCALE : Int
  /-- Constant `BATTERY_DIVIDER`. -/
  BATTERY_DIVIDER : Int
  /-- Constant `VOLTAGE_DROP`. -/
  VOLTAGE_DROP : Int

/-- Reduction of a value stored into an `int32_t`: the two's-complement value in
`-2^31 .. 2^31 - 1` congruent to `z` modulo `2^32`. -/
def wrapInt32 (z : Int) : Int := (z + 2 ^ 31) % 2 ^ 32 - 2 ^ 31

/-- Function `uint16_t getBatteryVoltage()`, the `BATT_SCALE` variant with `int`
constants:
```
int32_t instant_vbat = anaIn(TX_VOLTAGE);
instant_vbat = (instant_vbat * BATT_SCALE * (128 + g_eeGeneral.txVoltageCalibration)) /
    BATTERY_DIVIDER;
instant_vbat += VOLTAGE_DROP;
return (uint16_t)instant_vbat;
```
Every `int32_t` result (each of the two products, the quotient, the sum) is reduced
by `wrapInt32`; the division truncates toward zero and the return value is reduced to
16 bits. -/
def getBatteryVoltage (b : BattConfig) (c : AdcConfig) (s_anaFilt : Nat → Nat)
    (txVoltageCalibration : Int) : Nat :=
  let instant_vbat : Int := (anaIn c s_anaFilt b.TX_VOLTAGE : Nat)
  let product : Int :=
    wrapInt32 (wrapInt32 (instant_vbat * b.BATT_SCALE) * (128 + txVoltageCalibration))
  let scaled : Int := wrapInt32 (Int.tdiv product b.BATTERY_DIVIDER)
  let sum : Int := wrapInt32 (scaled + b.VOLTAGE_DROP)
  (sum % 2 ^ 16).toNat

/-- The result of `getBatteryVoltage` before the reduction to 16 bits, for the
filtered value `f` and the trim `t`:
`(f * BATT_SCALE * (128 + t)) / BATTERY_DIVIDER + VOLTAGE_DROP`. -/
def vbatUnreduced (b : BattConfig) (f : Nat) (t : Int) : Int :=
  Int.tdiv ((f : Int) * b.BATT_SCALE * (128 + t)) b.BATTERY_DIVIDER + b.VOLTAGE_DROP

/-- The distance of the accumulator from the interval where the filtered value is
`v`: zero exactly when `acc / JITTER_ALPHA = v`. -/
def driftGap (c : AdcConfig) (v acc : Nat) : Nat :=
  (c.JITTER_ALPHA * v - acc) + (acc - (c.JITTER_ALPHA * v + c.JITTER_ALPHA - 1))

/-! ## The mapper with a checked division -/

/-- The threshold loop of the mapper with the division checked: `none` when the
divisor `calib->count` is zero at the point where the division is evaluated. -/
def multiposLoopChecked (c : AdcConfig) (calib : StepsCalibData) (vShifted : Nat) :
    Nat → Nat → Nat → Option Nat
  | 0, _, acc => some acc
  | n + 1, i, acc =>
    if vShifted < calib.steps i then
      (if calib.count = 0 then none else some (u32 (i * ANAFILT_MAX c) / calib.count))
    else multiposLoopChecked c calib vShifted n (i + 1) acc

/-- Successive cycles of one channel over the same raw values: the channel body of
`getADC` applied `n` times to the accumulator. -/
def getADC_channel_iter (c : AdcConfig) (g : Settings) (adcValues : Nat → Nat) (x : Nat) :
    Nat → Nat → Nat
  | 0, acc => acc
  | n + 1, acc => getADC_channel c g adcValues x (getADC_channel_iter c g adcValues x n acc)

/-! ## Concrete builds -/

/-- A concrete build: `JITTER_ALPHA = 4`, `ANALOG_SCALE = 1`, `RESX = 1024`, eight
channels of which channel 5 is a multipos pot. -/
def cfg4 : AdcConfig :=
  { JITTER_ALPHA := 4, ANALOG_SCALE := 1, RESX := 1024, OVERRIDE_GLOBAL := 0, OVERRIDE_ON := 2,
    NUM_ANALOGS := 8, IS_POT := fun i => decide (4 ≤ i ∧ i < 7),
    IS_POT_SLIDER_AVAILABLE := fun i => decide (i ≠ 6),
    IS_POT_MULTIPOS := fun i => decide (i = 5),
    IS_MULTIPOS_CALIBRATED := fun k => decide (0 < k.count ∧ k.count < 6) }

/-- A three-position calibration profile with thresholds 40, 100, 200. -/
def calib3 : StepsCalibData :=
  { count := 3, steps := fun i => [40, 100, 200].getD i 0 }

/-- Settings with the model override on global and the radio filter enabled. -/
def settings0 : Settings :=
  { jitterFilter := 0, noJitterFilter := false, calib := fun _ => calib3 }

/-- A backend whose init operation fails. -/
def failingDriver : etx_hal_adc_driver_t (AdcHw Unit) :=
  { init := some (fun h => (false, h)),
    start_conversion := some (fun h => (true, h)),
    wait_completion := none }

/-- A backend without init whose start fills the raw values with 2000. -/
def workingDriver : etx_hal_adc_driver_t (AdcHw Unit) :=
  { init := none,
    start_conversion := some (fun h => (true, { h with adcValues := fun _ => 2000 })),
    wait_completion := some (fun h => h) }

/-- A state with `workingDriver` active, raw values 1234 and the bridge enabled. -/
def hal0 : HalState (AdcHw Unit) :=
  { _hal_adc_driver := some workingDriver,
    hw := { adcValues := fun _ => 1234, vbatBridge := true, dev := () },
    calls := [] }

/-- A state without an active backend, raw values 1234 and the bridge enabled. -/
def halNone : HalState (AdcHw Unit) :=
  { _hal_adc_driver := none,
    hw := { adcValues := fun _ => 1234, vbatBridge := true, dev := () },
    calls := [] }

/-- A build without PWM sticks. -/
def noPwm : PwmSticks :=
  { NUM_PWMSTICKS := 0, STICKS_PWM_ENABLED := false, sticksPwmRead := fun a => a }

/-- A three-position profile with the strictly ascending thresholds 43, 100, 120. -/
def calibGlitch : StepsCalibData :=
  { count := 3, steps := fun i => [43, 100, 120].getD i 0 }

/-- Settings with the filter enabled and the profile `calibGlitch` on every channel. -/
def settingsGlitch : Settings :=
  { jitterFilter := 0, noJitterFilter := false, calib := fun _ => calibGlitch }

/-- A three-position profile whose thresholds 21, 64, 106 lie between the reduced
positions 0, 42, 85, 127 of the values the mapper writes under `cfg4`. -/
def calibMid : StepsCalibData :=
  { count := 3, steps := fun i => [21, 64, 106].getD i 0 }

/-- Settings with the filter enabled and the profile `calibMid` on every channel. -/
def settingsMid : Settings :=
  { jitterFilter := 0, noJitterFilter := false, calib := fun _ => calibMid }

/-- Battery constants with a negative `VOLTAGE_DROP`. -/
def battNeg : BattConfig :=
  { TX_VOLTAGE := 7, BATT_SCALE := 1319, BATTERY_DIVIDER := 26214, VOLTAGE_DROP := -50 }

/-- Battery constants of a concrete board. -/
def batt0 : BattConfig :=
  { TX_VOLTAGE := 7, BATT_SCALE := 1319, BATTERY_DIVIDER := 26214, VOLTAGE_DROP := 20 }

/-! # Theorems -/

/-! ### Basic arithmetic facts -/

theorem ANALOG_MULTIPLIER_eq (c : AdcConfig) : ANALOG_MULTIPLIER c = 2 ^ c.ANALOG_SCALE := by
  simp [ANALOG_MULTIPLIER, Nat.shiftLeft_eq]

theorem ANALOG_MULTIPLIER_pos (c : AdcConfig) : 0 < ANALOG_MULTIPLIER c := by
  rw [ANALOG_MULTIPLIER_eq]; positivity

theorem alpha_le_of_static (c : AdcConfig) (h : staticCheck c) : c.JITTER_ALPHA ≤ 32 := by
  have hm := ANALOG_MULTIPLIER_pos c
  unfold staticCheck at h
  calc c.JITTER_ALPHA = c.JITTER_ALPHA * 1 := (Nat.mul_one _).symm
    _ ≤ c.JITTER_ALPHA * ANALOG_MULTIPLIER c := Nat.mul_le_mul_left _ hm
    _ ≤ 32 := h

theorem previous_le (c : AdcConfig) (acc : Nat) : previous c acc ≤ acc :=
  Nat.div_le_self _ _

theorem mult_le_of_static (c : AdcConfig) (hα : 0 < c.JITTER_ALPHA) (h : staticCheck c) :
    ANALOG_MULTIPLIER c ≤ 32 := by
  unfold staticCheck at h
  calc ANALOG_MULTIPLIER c = 1 * ANALOG_MULTIPLIER c := (Nat.one_mul _).symm
    _ ≤ c.JITTER_ALPHA * ANALOG_MULTIPLIER c := Nat.mul_le_mul_right _ hα
    _ ≤ 32 := h

/-- The accumulator is below `JITTER_ALPHA * (previous + 1)`. -/
theorem acc_lt_alpha_mul (c : AdcConfig) (hα : 0 < c.JITTER_ALPHA) (acc : Nat) :
    acc < c.JITTER_ALPHA * (previous c acc + 1) :=
  Nat.lt_mul_div_succ acc hα

/-- The accumulator is at least `JITTER_ALPHA * previous`. -/
theorem alpha_mul_le_acc (c : AdcConfig) (acc : Nat) :
    c.JITTER_ALPHA * previous c acc ≤ acc :=
  Nat.mul_div_le acc c.JITTER_ALPHA

/-- The source's `diff` is the absolute difference of `v` and `previous`. -/
theorem diff_eq_natAbs (c : AdcConfig) (acc v : Nat) :
    diff c acc v = Int.natAbs ((v : Int) - (previous c acc : Int)) := by
  unfold diff
  split <;> omega

/-- With the static check, a 16-bit reading times `JITTER_ALPHA` fits 32 bits. -/
theorem snap_no_wrap (c : AdcConfig) (hs : staticCheck c) (v : Nat) (hv : v < 2 ^ 16) :
    v * c.JITTER_ALPHA < 2 ^ 32 := by
  have hα := alpha_le_of_static c hs
  calc v * c.JITTER_ALPHA ≤ v * 32 := Nat.mul_le_mul_left _ hα
    _ < 2 ^ 32 := by omega

/-- With the static check, the smoothing update of a 16-bit reading close to
`previous` fits 32 bits. -/
theorem smooth_no_wrap (c : AdcConfig) (hα : 0 < c.JITTER_ALPHA) (hs : staticCheck c)
    (acc v : Nat) (hv : v < 2 ^ 16) (hd : diff c acc v < 10 * ANALOG_MULTIPLIER c) :
    acc - previous c acc + v < 2 ^ 32 := by
  have hα32 := alpha_le_of_static c hs
  have hm := mult_le_of_static c hα hs
  have h1 := acc_lt_alpha_mul c hα acc
  have h2 : c.JITTER_ALPHA * (previous c acc + 1) ≤ 32 * (previous c acc + 1) :=
    Nat.mul_le_mul_right _ hα32
  unfold diff at hd
  split at hd <;> omega

/-- Value of the smoothing branch when nothing wraps. -/
theorem jitterStep_smooth (c : AdcConfig) (acc v : Nat)
    (hα : 0 < c.JITTER_ALPHA) (hs : staticCheck c) (hv : v < 2 ^ 16)
    (hd : diff c acc v < 10 * ANALOG_MULTIPLIER c) :
    jitterStep c true acc v = acc - acc / c.JITTER_ALPHA + v := by
  have hw := smooth_no_wrap c hα hs acc v hv hd
  have hw2 : acc - previous c acc < 2 ^ 32 := by omega
  simp only [jitterStep, hd, decide_True, Bool.and_self, if_true, u32]
  rw [Nat.mod_eq_of_lt hw2, Nat.mod_eq_of_lt hw]
  rfl

/-- Value of the snap branch when nothing wraps. -/
theorem jitterStep_snap (c : AdcConfig) (flag : Bool) (acc v : Nat)
    (hs : staticCheck c) (hv : v < 2 ^ 16)
    (h : ¬ (flag = true ∧ diff c acc v < 10 * ANALOG_MULTIPLIER c)) :
    jitterStep c flag acc v = v * c.JITTER_ALPHA := by
  have hw := snap_no_wrap c hs v hv
  have hcond : (flag && decide (diff c acc v < 10 * ANALOG_MULTIPLIER c)) = false := by
    cases flag <;> simp_all
  simp only [jitterStep, hcond, u32]
  rw [Nat.mod_eq_of_lt hw]
  simp

/-- Every stored accumulator fits 32 bits. -/
theorem jitterStep_lt (c : AdcConfig) (flag : Bool) (acc v : Nat) :
    jitterStep c flag acc v < 2 ^ 32 := by
  unfold jitterStep u32
  split <;> exact Nat.mod_lt _ (by norm_num)

/-- The modified moving average stays between the bounds of its two inputs. -/
theorem mma_bounds (a x v lo hi : Nat) (ha : 0 < a)
    (h1 : lo ≤ x / a) (h2 : lo ≤ v) (h3 : x / a ≤ hi) (h4 : v ≤ hi) :
    lo ≤ (x - x / a + v) / a ∧ (x - x / a + v) / a ≤ hi := by
  obtain ⟨b, rfl⟩ : ∃ b, a = b + 1 := ⟨a - 1, by omega⟩
  have e1 : (b + 1) * (x / (b + 1)) ≤ x := Nat.mul_div_le x (b + 1)
  have e2 : x < (b + 1) * (x / (b + 1) + 1) := Nat.lt_mul_div_succ x ha
  generalize x / (b + 1) = p at *
  have f1 : b * lo ≤ b * p := Nat.mul_le_mul_left _ h1
  have f2 : b * p ≤ b * hi := Nat.mul_le_mul_left _ h3
  constructor
  · rw [Nat.le_div_iff_mul_le ha]
    have : lo * (b + 1) = b * lo + lo := by ring
    have : (b + 1) * p = b * p + p := by ring
    omega
  · rw [← Nat.lt_add_one_iff, Nat.div_lt_iff_lt_mul ha]
    have : (hi + 1) * (b + 1) = b * hi + hi + b + 1 := by ring
    have : (b + 1) * (p + 1) = b * p + p + b + 1 := by ring
    omega

/-- After one step the filtered value lies between any bounds that enclose both
the previous filtered value and the reading. -/
theorem jitterStep_between (c : AdcConfig) (flag : Bool) (acc v lo hi : Nat)
    (hα : 0 < c.JITTER_ALPHA) (hs : staticCheck c) (hv : v < 2 ^ 16)
    (h1 : lo ≤ filtered c acc) (h2 : lo ≤ v) (h3 : filtered c acc ≤ hi) (h4 : v ≤ hi) :
    lo ≤ filtered c (jitterStep c flag acc v) ∧ filtered c (jitterStep c flag acc v) ≤ hi := by
  by_cases h : flag = true ∧ diff c acc v < 10 * ANALOG_MULTIPLIER c
  · obtain ⟨hf, hd⟩ := h
    subst hf
    rw [jitterStep_smooth c acc v hα hs hv hd]
    exact mma_bounds c.JITTER_ALPHA acc v lo hi hα h1 h2 h3 h4
  · rw [jitterStep_snap c flag acc v hs hv h]
    have e : filtered c (v * c.JITTER_ALPHA) = v := by
      simpa [filtered] using Nat.mul_div_cancel v hα
    rw [e]
    exact ⟨h2, h4⟩

/-- A run over in-band readings keeps the filtered value in the band. -/
theorem jitterRun_in_band (c : AdcConfig) (flag : Bool) (center : Nat)
    (hα : 0 < c.JITTER_ALPHA) (hs : staticCheck c) (vs : List Nat) :
    ∀ acc, inBand c center (filtered c acc) →
      (∀ v ∈ vs, v < 2 ^ 16 ∧ inBand c center v) →
      inBand c center (filtered c (jitterRun c flag acc vs)) := by
  induction vs with
  | nil => intro acc h _; simpa [jitterRun] using h
  | cons v rest ih =>
    intro acc h hvs
    obtain ⟨hv, hb⟩ := hvs v (List.mem_cons_self _ _)
    have hstep := jitterStep_between c flag acc v _ _ hα hs hv h.1 hb.1 h.2 hb.2
    have := ih (jitterStep c flag acc v) hstep
      (fun w hw => hvs w (List.mem_cons_of_mem _ hw))
    simpa [jitterRun] using this

/-! ## Claims about the jitter filter -/

/-- C1: one jitter-filter step. With the flag on and `diff < 10 * ANALOG_MULTIPLIER`
the new accumulator is exactly `acc - prev + v`; in every other case it is exactly
`v * JITTER_ALPHA`, whatever `acc` was. The readings are 16-bit and the
configuration passes the static check. -/
theorem C1_jitterStep_cases (c : AdcConfig) (flag : Bool) (acc v : Nat)
    (hα : 0 < c.JITTER_ALPHA) (hs : staticCheck c) (hv : v < 2 ^ 16) :
    (if flag = true ∧ diff c acc v < 10 * ANALOG_MULTIPLIER c
      then jitterStep c flag acc v = acc - acc / c.JITTER_ALPHA + v
      else jitterStep c flag acc v = v * c.JITTER_ALPHA) := by
  split
  · next h =>
    obtain ⟨hf, hd⟩ := h
    subst hf
    exact jitterStep_smooth c acc v hα hs hv hd
  · next h => exact jitterStep_snap c flag acc v hs hv h

/-- C1 at `cfg4`, accumulator 4005, reading 1002: the smoothing branch gives 4006. -/
theorem C1_jitterStep_cases_witness :
    0 < cfg4.JITTER_ALPHA ∧ staticCheck cfg4 ∧ 1002 < 2 ^ 16 ∧
      jitterStep cfg4 true 4005 1002 = 4005 - 4005 / 4 + 1002 := by
  refine ⟨by decide, by decide, by decide, ?_⟩
  have h := C1_jitterStep_cases cfg4 true 4005 1002 (by decide) (by decide) (by decide)
  rw [if_pos (by decide)] at h
  exact h

/-- C2: passthrough for large steps. When `|v - acc / JITTER_ALPHA|` is at least
`10 * ANALOG_MULTIPLIER`, the filtered value after one step equals the 16-bit
reading `v` exactly, with the filter enabled or disabled. -/
theorem C2_passthrough_large_step (c : AdcConfig) (flag : Bool) (acc v : Nat)
    (hα : 0 < c.JITTER_ALPHA) (hs : staticCheck c) (hv : v < 2 ^ 16)
    (hbig : 10 * ANALOG_MULTIPLIER c ≤ Int.natAbs ((v : Int) - ((acc / c.JITTER_ALPHA : Nat) : Int))) :
    filtered c (jitterStep c flag acc v) = v := by
  have hd : ¬ diff c acc v < 10 * ANALOG_MULTIPLIER c := by
    rw [diff_eq_natAbs]; unfold previous; omega
  have hw := snap_no_wrap c hs v hv
  have hcond : (flag && decide (diff c acc v < 10 * ANALOG_MULTIPLIER c)) = false := by
    cases flag <;> simp [hd]
  simp only [jitterStep, hcond, u32, filtered]
  rw [Nat.mod_eq_of_lt hw]
  simpa using Nat.mul_div_cancel v hα

/-- C2 at `cfg4`: from the accumulator 4004 the reading 1500 is reported at once. -/
theorem C2_passthrough_large_step_witness :
    filtered cfg4 (jitterStep cfg4 true 4004 1500) = 1500 :=
  C2_passthrough_large_step cfg4 true 4004 1500 (by decide) (by decide) (by decide)
    (by decide)

/-- One step at rest keeps the channel at rest. -/
theorem jitterStep_at_rest (c : AdcConfig) (flag : Bool) (acc v : Nat)
    (hα : 0 < c.JITTER_ALPHA) (hacc : acc < 2 ^ 32) (hrest : filtered c acc = v) :
    jitterStep c flag acc v < 2 ^ 32 ∧ filtered c (jitterStep c flag acc v) = v ∧
      (flag = true → jitterStep c flag acc v = acc) := by
  have hm := ANALOG_MULTIPLIER_pos c
  have hp : previous c acc = v := hrest
  have hd : diff c acc v < 10 * ANALOG_MULTIPLIER c := by
    unfold diff; rw [hp]; simp; omega
  have hle : v ≤ acc := hp ▸ previous_le c acc
  cases flag with
  | true =>
    have e : jitterStep c true acc v = acc := by
      simp only [jitterStep, hd, decide_True, Bool.and_self, if_true, u32, hp]
      omega
    rw [e]
    exact ⟨hacc, hrest, fun _ => rfl⟩
  | false =>
    have hmul : v * c.JITTER_ALPHA ≤ acc := by
      rw [← hp, Nat.mul_comm]; exact alpha_mul_le_acc c acc
    have e : jitterStep c false acc v = v * c.JITTER_ALPHA := by
      simp only [jitterStep, Bool.false_and, u32]
      simpa using Nat.mod_eq_of_lt (lt_of_le_of_lt hmul hacc)
    rw [e]
    refine ⟨lt_of_le_of_lt hmul hacc, ?_, fun h => by cases h⟩
    simpa [filtered] using Nat.mul_div_cancel v hα

/-- Feeding the rest value any number of times keeps the channel at rest. -/
theorem jitterRun_at_rest (c : AdcConfig) (flag : Bool) (v : Nat)
    (hα : 0 < c.JITTER_ALPHA) (n : Nat) :
    ∀ acc, acc < 2 ^ 32 → filtered c acc = v →
      filtered c (jitterRun c flag acc (List.replicate n v)) = v ∧
        (flag = true → jitterRun c flag acc (List.replicate n v) = acc) := by
  induction n with
  | zero => intro acc _ hrest; exact ⟨by simpa [jitterRun] using hrest, fun _ => rfl⟩
  | succ k ih =>
    intro acc hacc hrest
    obtain ⟨h1, h2, h3⟩ := jitterStep_at_rest c flag acc v hα hacc hrest
    have hrun : jitterRun c flag acc (List.replicate (k + 1) v)
        = jitterRun c flag (jitterStep c flag acc v) (List.replicate k v) := by
      simp [jitterRun, List.replicate_succ]
    rw [hrun]
    obtain ⟨i1, i2⟩ := ih _ h1 h2
    exact ⟨i1, fun hf => by rw [i2 hf, h3 hf]⟩

/-- C3: idempotence at rest. If `acc / JITTER_ALPHA = v`, one step fed `v` reports
`v` again with the filter enabled or disabled, and with the filter enabled the
accumulator is unchanged; feeding `v` any number `n` of times reports `v`. -/
theorem C3_idempotence_at_rest (c : AdcConfig) (flag : Bool) (acc v n : Nat)
    (hα : 0 < c.JITTER_ALPHA) (hacc : acc < 2 ^ 32) (hrest : acc / c.JITTER_ALPHA = v) :
    filtered c (jitterStep c flag acc v) = v ∧
      jitterStep c true acc v = acc ∧
      filtered c (jitterRun c flag acc (List.replicate n v)) = v :=
  ⟨(jitterStep_at_rest c flag acc v hα hacc hrest).2.1,
   (jitterStep_at_rest c true acc v hα hacc hrest).2.2 rfl,
   (jitterRun_at_rest c flag v hα n acc hacc hrest).1⟩

/-- C3 at `cfg4`: the accumulator 4002 rests at 1000 and stays there for five cycles. -/
theorem C3_idempotence_at_rest_witness :
    filtered cfg4 (jitterStep cfg4 false 4002 1000) = 1000 ∧
      jitterStep cfg4 true 4002 1000 = 4002 ∧
      filtered cfg4 (jitterRun cfg4 false 4002 (List.replicate 5 1000)) = 1000 :=
  C3_idempotence_at_rest cfg4 false 4002 1000 5 (by decide) (by decide) (by decide)

/-- Under constant readings 1005 the accumulator of `cfg4` stays in 4005..4023. -/
theorem cfg4_drift (n : Nat) :
    ∀ acc, 4005 ≤ acc ∧ acc ≤ 4023 →
      4005 ≤ jitterRun cfg4 true acc (List.replicate n 1005) ∧
        jitterRun cfg4 true acc (List.replicate n 1005) ≤ 4023 := by
  induction n with
  | zero => intro acc h; simpa [jitterRun] using h
  | succ k ih =>
    intro acc h
    have hstep : 4005 ≤ jitterStep cfg4 true acc 1005 ∧ jitterStep cfg4 true acc 1005 ≤ 4023 := by
      have hd : diff cfg4 acc 1005 < 10 * ANALOG_MULTIPLIER cfg4 := by
        simp only [diff, previous, cfg4, ANALOG_MULTIPLIER]
        split <;> omega
      rw [jitterStep_smooth cfg4 acc 1005 (by decide) (by decide) (by decide) hd]
      simp only [cfg4]
      omega
    have := ih _ hstep
    simpa [jitterRun, List.replicate_succ] using this

/-- C4 fails as stated: at `cfg4`, converged at 1000, the in-band constant readings
1005 keep the reported value away from 1000 after every number of cycles. -/
theorem C4_convergence_counterexample :
    ¬ ∃ N : Nat, ∀ vs : List Nat, (∀ v ∈ vs, inBand cfg4 1000 v) → N ≤ vs.length →
      filtered cfg4 (jitterRun cfg4 true 4000 vs) = 1000 := by
  rintro ⟨N, h⟩
  have h1 := h (List.replicate (N + 1) 1005)
    (fun v hv => by rw [List.eq_of_mem_replicate hv]; decide) (by simp)
  have hfirst : jitterStep cfg4 true 4000 1005 = 4005 := by decide
  have h2 := cfg4_drift N 4005 (by omega)
  have e : jitterRun cfg4 true 4000 (List.replicate (N + 1) 1005)
      = jitterRun cfg4 true 4005 (List.replicate N 1005) := by
    simp [jitterRun, List.replicate_succ, hfirst]
  rw [e] at h1
  have hα : cfg4.JITTER_ALPHA = 4 := rfl
  rw [filtered, hα] at h1
  omega

/-- C4 as amended: with the filter enabled, from an accumulator converged at `center`
and over 16-bit readings that each lie within `10 * ANALOG_MULTIPLIER - 1` of
`center`, the reported filtered value lies within `10 * ANALOG_MULTIPLIER - 1` of
`center` after every cycle. -/
theorem C4_noise_stays_in_band (c : AdcConfig) (center acc : Nat) (vs : List Nat)
    (hα : 0 < c.JITTER_ALPHA) (hs : staticCheck c) (hconv : acc / c.JITTER_ALPHA = center)
    (hvs : ∀ v ∈ vs, v < 2 ^ 16 ∧ inBand c center v) :
    inBand c center (filtered c (jitterRun c true acc vs)) := by
  apply jitterRun_in_band c true center hα hs vs acc _ hvs
  have e : filtered c acc = center := hconv
  rw [e]
  exact ⟨Nat.sub_le _ _, Nat.le_add_right _ _⟩

/-- C4 as amended at `cfg4`: the noisy readings 1019, 981, 1010 around 1000. -/
theorem C4_noise_stays_in_band_witness :
    inBand cfg4 1000 (filtered cfg4 (jitterRun cfg4 true 4000 [1019, 981, 1010])) :=
  C4_noise_stays_in_band cfg4 1000 4000 [1019, 981, 1010] (by decide) (by decide)
    (by decide) (by decide)

/-- C5: the end-to-end scenario. With `JITTER_ALPHA = 4`, `ANALOG_MULTIPLIER = 2`, the
filter enabled and the accumulator 4000, the readings 1000, 1005, 1002, 1500 give
the accumulators 4000, 4005, 4006, 6000: cycles two and three smooth (filtered value
1001, inside 1000..1005) and the fourth snaps to exactly 1500. -/
theorem C5_end_to_end_scenario :
    cfg4.JITTER_ALPHA = 4 ∧ ANALOG_MULTIPLIER cfg4 = 2 ∧ filtered cfg4 4000 = 1000 ∧
    jitterStep cfg4 true 4000 1000 = 4000 ∧
    (diff cfg4 4000 1005 < 10 * ANALOG_MULTIPLIER cfg4 ∧
      jitterStep cfg4 true 4000 1005 = 4005 ∧ filtered cfg4 4005 = 1001) ∧
    (diff cfg4 4005 1002 < 10 * ANALOG_MULTIPLIER cfg4 ∧
      jitterStep cfg4 true 4005 1002 = 4006 ∧ filtered cfg4 4006 = 1001) ∧
    (¬ diff cfg4 4006 1500 < 10 * ANALOG_MULTIPLIER cfg4 ∧
      jitterStep cfg4 true 4006 1500 = 6000 ∧ filtered cfg4 6000 = 1500) ∧
    jitterRun cfg4 true 4000 [1000, 1005, 1002, 1500] = 6000 := by
  decide

/-! ## The calibration mapper -/

/-- The value of `ANAFILT_MAX` without the conversion, for positive constants that fit. -/
theorem ANAFILT_MAX_eq (c : AdcConfig) (hα : 0 < c.JITTER_ALPHA) (hR : 0 < c.RESX)
    (hfit : 2 * c.RESX * c.JITTER_ALPHA * ANALOG_MULTIPLIER c ≤ 2 ^ 32) :
    ANAFILT_MAX c = 2 * c.RESX * c.JITTER_ALPHA * ANALOG_MULTIPLIER c - 1 := by
  have hm := ANALOG_MULTIPLIER_pos c
  have hpos : 0 < 2 * c.RESX * c.JITTER_ALPHA * ANALOG_MULTIPLIER c := by positivity
  unfold ANAFILT_MAX
  generalize 2 * c.RESX * c.JITTER_ALPHA * ANALOG_MULTIPLIER c = p at *
  omega

/-- With the static check and a 16-bit reported range, `ANAFILT_MAX` is below `2^21`. -/
theorem ANAFILT_MAX_lt (c : AdcConfig) (hα : 0 < c.JITTER_ALPHA) (hR : 0 < c.RESX)
    (h16 : 2 * c.RESX ≤ 2 ^ 16) (hs : staticCheck c) :
    ANAFILT_MAX c = 2 * c.RESX * c.JITTER_ALPHA * ANALOG_MULTIPLIER c - 1 ∧
      ANAFILT_MAX c < 2 ^ 21 := by
  have hm := ANALOG_MULTIPLIER_pos c
  have hp : 2 * c.RESX * c.JITTER_ALPHA * ANALOG_MULTIPLIER c ≤ 2 ^ 16 * 32 := by
    rw [Nat.mul_assoc]
    exact Nat.mul_le_mul h16 hs
  have hpos : 0 < 2 * c.RESX * c.JITTER_ALPHA * ANALOG_MULTIPLIER c := by positivity
  have e := ANAFILT_MAX_eq c hα hR (by omega)
  exact ⟨e, by omega⟩

/-- The loop index stays between its start and its bound. -/
theorem multiposIndex_bounds (calib : StepsCalibData) (r n : Nat) :
    ∀ i, i ≤ multiposIndex calib r n i ∧ multiposIndex calib r n i ≤ i + n := by
  induction n with
  | zero => intro i; simp [multiposIndex]
  | succ k ih =>
    intro i
    unfold multiposIndex
    split
    · omega
    · have := ih (i + 1); omega

/-- No threshold before the loop index exceeds `r`, and the threshold at the loop
index does when the loop stopped early. -/
theorem multiposIndex_spec (calib : StepsCalibData) (r n : Nat) :
    ∀ i, (∀ j, i ≤ j → j < multiposIndex calib r n i → ¬ r < calib.steps j) ∧
      (multiposIndex calib r n i < i + n → r < calib.steps (multiposIndex calib r n i)) := by
  induction n with
  | zero => intro i; simp [multiposIndex]; intro j h1 h2; omega
  | succ k ih =>
    intro i
    unfold multiposIndex
    split
    · next h => exact ⟨fun j h1 h2 => by omega, fun _ => h⟩
    · next h =>
      obtain ⟨a, b⟩ := ih (i + 1)
      refine ⟨fun j h1 h2 => ?_, fun h3 => b (by omega)⟩
      by_cases e : j = i
      · subst e; exact h
      · exact a j (by omega) h2

/-- The loop index is the least index whose threshold exceeds `r`. -/
theorem multiposIndex_unique (calib : StepsCalibData) (r n i k : Nat)
    (h1 : i ≤ k) (h2 : k < i + n) (h3 : r < calib.steps k)
    (h4 : ∀ j, i ≤ j → j < k → ¬ r < calib.steps j) :
    multiposIndex calib r n i = k := by
  obtain ⟨a, b⟩ := multiposIndex_spec calib r n i
  obtain ⟨lo, _⟩ := multiposIndex_bounds calib r n i
  have hle : multiposIndex calib r n i ≤ k := by
    by_contra hc
    exact a k h1 (by omega) h3
  rcases Nat.lt_or_eq_of_le hle with hlt | heq
  · exact absurd (b (by omega)) (h4 _ lo hlt)
  · exact heq

/-- When no threshold exceeds `r` the loop runs out. -/
theorem multiposIndex_none (calib : StepsCalibData) (r n i : Nat)
    (h : ∀ j, i ≤ j → j < i + n → ¬ r < calib.steps j) :
    multiposIndex calib r n i = i + n := by
  obtain ⟨_, b⟩ := multiposIndex_spec calib r n i
  obtain ⟨lo, hi⟩ := multiposIndex_bounds calib r n i
  by_contra hc
  have hlt : multiposIndex calib r n i < i + n := by omega
  exact h _ lo hlt (b hlt)

/-- The loop index is monotone in the reduced value. -/
theorem multiposIndex_mono (calib : StepsCalibData) (r1 r2 n : Nat) (h : r1 ≤ r2) :
    ∀ i, multiposIndex calib r1 n i ≤ multiposIndex calib r2 n i := by
  induction n with
  | zero => intro i; simp [multiposIndex]
  | succ k ih =>
    intro i
    unfold multiposIndex
    by_cases h2 : r2 < calib.steps i
    · have h1 : r1 < calib.steps i := by omega
      simp [h1, h2]
    · have hb := (multiposIndex_bounds calib r2 k (i + 1)).1
      by_cases h1 : r1 < calib.steps i
      · simp only [h1, h2, if_true, if_false]; omega
      · simp only [h1, h2, if_false]; exact ih (i + 1)

/-- The accumulator the loop leaves, in terms of the loop index. -/
theorem multiposLoop_eq (c : AdcConfig) (calib : StepsCalibData) (r acc n : Nat) :
    ∀ i, multiposLoop c calib r n i acc =
      if multiposIndex calib r n i < i + n
      then u32 (multiposIndex calib r n i * ANAFILT_MAX c) / calib.count else acc := by
  induction n with
  | zero => intro i; simp [multiposLoop, multiposIndex]
  | succ k ih =>
    intro i
    unfold multiposLoop multiposIndex
    by_cases h : r < calib.steps i
    · simp [h]
    · simp only [h, if_false]
      rw [ih (i + 1)]
      have e : i + 1 + k = i + (k + 1) := by omega
      rw [e]

/-- The mapper body in terms of the step index. -/
theorem multiposSnap_eq (c : AdcConfig) (calib : StepsCalibData) (acc : Nat) :
    multiposSnap c calib acc =
      if stepIndex c calib acc < calib.count
      then u32 (stepIndex c calib acc * ANAFILT_MAX c) / calib.count else ANAFILT_MAX c := by
  unfold multiposSnap stepIndex
  rw [multiposLoop_eq]
  simp

/-- The mapper body never exceeds `ANAFILT_MAX`. -/
theorem multiposSnap_le (c : AdcConfig) (calib : StepsCalibData) (acc : Nat) :
    multiposSnap c calib acc ≤ ANAFILT_MAX c := by
  rw [multiposSnap_eq]
  split
  · next h =>
    apply Nat.div_le_of_le_mul
    calc u32 (stepIndex c calib acc * ANAFILT_MAX c)
        ≤ stepIndex c calib acc * ANAFILT_MAX c := Nat.mod_le _ _
      _ ≤ calib.count * ANAFILT_MAX c := Nat.mul_le_mul_right _ (Nat.le_of_lt h)
  · exact Nat.le_refl _

/-! ## The channel loop -/

/-- The loop over the first `n` channels rewrites each of them once, from its own
old accumulator. -/
theorem channel_loop_apply (f : Nat → Nat → Nat) (n : Nat) (s : Nat → Nat) (x : Nat) :
    (List.range n).foldl (fun t k => Function.update t k (f k (t k))) s x =
      if x < n then f x (s x) else s x := by
  induction n with
  | zero => simp
  | succ m ih =>
    rw [List.range_succ, List.foldl_append]
    simp only [List.foldl_cons, List.foldl_nil]
    by_cases hx : x = m
    · subst hx
      simp [Function.update_same, ih]
    · rw [Function.update_noteq hx, ih]
      by_cases hlt : x < m
      · simp [hlt, Nat.lt_succ_of_lt hlt]
      · have : ¬ x < m + 1 := fun h =>
          (Nat.lt_succ_iff_lt_or_eq.mp h).elim hlt hx
        simp [hlt, this]

/-- One cycle of `getADC` applies the channel body to every channel below
`NUM_ANALOGS` and leaves the others alone. -/
theorem getADC_apply (c : AdcConfig) (g : Settings) (adcValues s : Nat → Nat) (x : Nat) :
    getADC c g adcValues s x =
      if x < c.NUM_ANALOGS then getADC_channel c g adcValues x (s x) else s x :=
  channel_loop_apply (fun k a => getADC_channel c g adcValues k a) c.NUM_ANALOGS s x

/-! ## Accumulator headroom -/

/-- For `ANALOG_SCALE` 0 or 1 the multiplier is 1 or 2 and the full scale 2047 or 4095. -/
theorem scale_cases (c : AdcConfig) (hscale : c.ANALOG_SCALE ≤ 1) :
    (ANALOG_MULTIPLIER c = 1 ∧ fullScale c = 2047) ∨
      (ANALOG_MULTIPLIER c = 2 ∧ fullScale c = 4095) := by
  have h : c.ANALOG_SCALE = 0 ∨ c.ANALOG_SCALE = 1 := by omega
  rcases h with h | h
  · left; simp [ANALOG_MULTIPLIER, fullScale, h]
  · right; simp [ANALOG_MULTIPLIER, fullScale, h]

/-- A 12-bit reading normalizes to at most the full scale. -/
theorem normalized_le (c : AdcConfig) (raw : Nat) (h : raw ≤ 4095) :
    normalized c raw ≤ fullScale c := by
  unfold normalized fullScale
  rw [Nat.shiftRight_eq_div_pow, Nat.shiftRight_eq_div_pow]
  exact Nat.div_le_div_right h

/-- The full scale is at most 4095. -/
theorem fullScale_le (c : AdcConfig) : fullScale c ≤ 4095 := by
  unfold fullScale
  rw [Nat.shiftRight_eq_div_pow]
  exact Nat.div_le_self _ _

/-- An accumulator whose filtered value is within the full scale is 16-bit. -/
theorem headroom_lt (c : AdcConfig) (hα : 0 < c.JITTER_ALPHA) (hscale : c.ANALOG_SCALE ≤ 1)
    (hs : staticCheck c) (acc : Nat) (h : acc / c.JITTER_ALPHA ≤ fullScale c) :
    acc < 2 ^ 16 := by
  have h1 := acc_lt_alpha_mul c hα acc
  have h2 : c.JITTER_ALPHA * (previous c acc + 1) ≤ c.JITTER_ALPHA * (fullScale c + 1) :=
    Nat.mul_le_mul_left _ (by unfold previous; omega)
  unfold staticCheck at hs
  rcases scale_cases c hscale with ⟨hm, hf⟩ | ⟨hm, hf⟩ <;> rw [hm] at hs <;> rw [hf] at h2 <;> omega

/-- The filter step keeps the filtered value within the full scale. -/
theorem jitterStep_headroom (c : AdcConfig) (hα : 0 < c.JITTER_ALPHA) (hs : staticCheck c)
    (flag : Bool) (acc v : Nat) (h : acc / c.JITTER_ALPHA ≤ fullScale c)
    (hv : v ≤ fullScale c) :
    jitterStep c flag acc v / c.JITTER_ALPHA ≤ fullScale c := by
  have hf := fullScale_le c
  exact (jitterStep_between c flag acc v 0 (fullScale c) hα hs (by omega)
    (Nat.zero_le _) (Nat.zero_le _) h hv).2

/-- The mapper keeps the filtered value within the full scale. -/
theorem multiposMap_headroom (c : AdcConfig) (hα : 0 < c.JITTER_ALPHA)
    (hscale : c.ANALOG_SCALE ≤ 1) (hR : c.RESX = 1024)
    (x : Nat) (calib : StepsCalibData) (acc : Nat) (h : acc / c.JITTER_ALPHA ≤ fullScale c) :
    multiposMap c x calib acc / c.JITTER_ALPHA ≤ fullScale c := by
  unfold multiposMap
  split
  · have hle := multiposSnap_le c calib acc
    have hmax : ANAFILT_MAX c < c.JITTER_ALPHA * (fullScale c + 1) := by
      unfold ANAFILT_MAX
      rw [hR]
      rcases scale_cases c hscale with ⟨hm, hf⟩ | ⟨hm, hf⟩ <;> rw [hm, hf] <;> omega
    rw [← Nat.lt_add_one_iff, Nat.div_lt_iff_lt_mul hα, Nat.mul_comm]
    omega
  · exact h

/-- One channel body keeps the filtered value within the full scale. -/
theorem getADC_channel_headroom (c : AdcConfig) (hα : 0 < c.JITTER_ALPHA)
    (hscale : c.ANALOG_SCALE ≤ 1) (hs : staticCheck c) (hR : c.RESX = 1024)
    (g : Settings) (adcValues : Nat → Nat) (x acc : Nat)
    (hraw : getAnalogValue c adcValues x ≤ 4095) (h : acc / c.JITTER_ALPHA ≤ fullScale c) :
    getADC_channel c g adcValues x acc / c.JITTER_ALPHA ≤ fullScale c := by
  unfold getADC_channel
  apply multiposMap_headroom c hα hscale hR
  exact jitterStep_headroom c hα hs _ acc _ h (normalized_le c _ hraw)

/-- Every run of cycles over 12-bit readings keeps every channel within the full scale. -/
theorem getADC_run_headroom (c : AdcConfig) (hα : 0 < c.JITTER_ALPHA)
    (hscale : c.ANALOG_SCALE ≤ 1) (hs : staticCheck c) (hR : c.RESX = 1024)
    (cycles : List (Settings × (Nat → Nat))) :
    ∀ s : Nat → Nat, (∀ cy ∈ cycles, ∀ k, getAnalogValue c cy.2 k ≤ 4095) →
      (∀ k, s k / c.JITTER_ALPHA ≤ fullScale c) →
      ∀ k, getADC_run c cycles s k / c.JITTER_ALPHA ≤ fullScale c := by
  induction cycles with
  | nil => intro s _ h; simpa [getADC_run] using h
  | cons cy rest ih =>
    intro s hraw h
    have hstep : ∀ k, getADC c cy.1 cy.2 s k / c.JITTER_ALPHA ≤ fullScale c := by
      intro k
      rw [getADC_apply]
      split
      · exact getADC_channel_headroom c hα hscale hs hR cy.1 cy.2 k (s k)
          (hraw cy (List.mem_cons_self _ _) k) (h k)
      · exact h k
    have := ih (getADC c cy.1 cy.2 s) (fun d hd => hraw d (List.mem_cons_of_mem _ hd)) hstep
    simpa [getADC_run] using this

/-- C6: accumulator headroom. For `ANALOG_SCALE` 0 or 1, a configuration that passes
the static check, `RESX = 1024`, 12-bit readings from `getAnalogValue` and an initial
accumulator array with `accumulator / JITTER_ALPHA ≤ 4095 >> (1 - ANALOG_SCALE)`:
after every run of cycles of `getADC` every channel's accumulator is below `2^16`
and again within the full scale, so in the next cycle the subtraction
`accumulator - previous` does not underflow and neither the addition of the reading,
the product `v * JITTER_ALPHA` nor a product `i * ANAFILT_MAX` of the mapper wraps. -/
theorem C6_accumulator_headroom (c : AdcConfig) (cycles : List (Settings × (Nat → Nat)))
    (s0 : Nat → Nat) (x : Nat)
    (hα : 0 < c.JITTER_ALPHA) (hscale : c.ANALOG_SCALE ≤ 1) (hs : staticCheck c)
    (hR : c.RESX = 1024)
    (hraw : ∀ cy ∈ cycles, ∀ k, getAnalogValue c cy.2 k ≤ 4095)
    (hinit : ∀ k, s0 k / c.JITTER_ALPHA ≤ 4095 >>> (1 - c.ANALOG_SCALE)) :
    getADC_run c cycles s0 x < 2 ^ 16 ∧
    getADC_run c cycles s0 x / c.JITTER_ALPHA ≤ 4095 >>> (1 - c.ANALOG_SCALE) ∧
    (∀ raw, raw ≤ 4095 →
      previous c (getADC_run c cycles s0 x) ≤ getADC_run c cycles s0 x ∧
      getADC_run c cycles s0 x - previous c (getADC_run c cycles s0 x) + normalized c raw
        < 2 ^ 32 ∧
      normalized c raw * c.JITTER_ALPHA < 2 ^ 32) ∧
    (∀ (calib : StepsCalibData) (i : Nat), calib.count < 256 → i < calib.count →
      i * ANAFILT_MAX c < 2 ^ 32) := by
  have hinv := getADC_run_headroom c hα hscale hs hR cycles s0 hraw hinit x
  have hlt := headroom_lt c hα hscale hs _ hinv
  refine ⟨hlt, hinv, ?_, ?_⟩
  · intro raw hraw1
    have hv := normalized_le c raw hraw1
    have hf := fullScale_le c
    have hp := previous_le c (getADC_run c cycles s0 x)
    refine ⟨hp, by omega, snap_no_wrap c hs _ (by omega)⟩
  · intro calib i hcount hi
    have hmax := (ANAFILT_MAX_lt c hα (by omega) (by omega) hs).2
    calc i * ANAFILT_MAX c ≤ 256 * ANAFILT_MAX c := Nat.mul_le_mul_right _ (by omega)
      _ < 2 ^ 32 := by omega

/-- C6 at `cfg4`: two cycles with raw values 3000 then 4095 on every channel, from the
zero accumulators, channel 5 (a calibrated multipos pot). -/
theorem C6_accumulator_headroom_witness :
    getADC_run cfg4 [(settings0, fun _ => 3000), (settings0, fun _ => 4095)] (fun _ => 0) 5
      < 2 ^ 16 :=
  (C6_accumulator_headroom cfg4 [(settings0, fun _ => 3000), (settings0, fun _ => 4095)]
    (fun _ => 0) 5 (by decide) (by decide) (by decide) rfl
    (by
      intro cy hcy k
      simp only [List.mem_cons, List.mem_singleton, List.not_mem_nil, or_false] at hcy
      rcases hcy with h | h <;> subst h <;> simp only [getAnalogValue] <;> split <;> omega)
    (by intro k; simp)).1

/-! ## Claims about the calibration mapper -/

/-- Dividing one less than a positive multiple of `p` by `p`. -/
theorem pred_mul_div (p q : Nat) (hp : 0 < p) (hq : 0 < q) : (q * p - 1) / p = q - 1 := by
  obtain ⟨k, rfl⟩ : ∃ k, q = k + 1 := ⟨q - 1, by omega⟩
  have e : (k + 1) * p = k * p + p := by ring
  apply Nat.div_eq_of_lt_le
  · simp only [Nat.add_sub_cancel]; omega
  · simp only [Nat.add_sub_cancel]; omega

/-- A filtered value below 4096 is reduced without loss by the 8-bit store. -/
theorem vShifted_eq (c : AdcConfig) (acc : Nat) (h : ANA_FILT c acc >>> 4 < 256) :
    vShifted c acc = ANA_FILT c acc >>> 4 := by
  unfold vShifted u8
  exact Nat.mod_eq_of_lt (by omega)

/-- The reduction is below 256 for filtered values below 4096. -/
theorem shift4_lt (a : Nat) (h : a < 4096) : a >>> 4 < 256 := by
  rw [Nat.shiftRight_eq_div_pow]; omega

/-- The reduction is monotone. -/
theorem shift4_mono (a b : Nat) (h : a ≤ b) : a >>> 4 ≤ b >>> 4 := by
  rw [Nat.shiftRight_eq_div_pow, Nat.shiftRight_eq_div_pow]
  exact Nat.div_le_div_right h

/-- In the mapper a product `i * ANAFILT_MAX` with `i` below an 8-bit count does
not wrap. -/
theorem index_mul_no_wrap (c : AdcConfig) (hα : 0 < c.JITTER_ALPHA) (hR : 0 < c.RESX)
    (h16 : 2 * c.RESX ≤ 2 ^ 16) (hs : staticCheck c) (i : Nat) (hi : i < 256) :
    u32 (i * ANAFILT_MAX c) = i * ANAFILT_MAX c := by
  have hmax := (ANAFILT_MAX_lt c hα hR h16 hs).2
  have : i * ANAFILT_MAX c ≤ 256 * ANAFILT_MAX c := Nat.mul_le_mul_right _ (by omega)
  unfold u32
  exact Nat.mod_eq_of_lt (by omega)

/-- C7: result of the calibration mapper. With `r = ANA_FILT >> 4` below 256 and
`ANAFILT_MAX = 2 * RESX * JITTER_ALPHA * ANALOG_MULTIPLIER - 1`: on a calibrated
multipos channel the accumulator becomes `(i * ANAFILT_MAX) / count` for the least
index `i` with `r < steps[i]`, and `ANAFILT_MAX` when no threshold exceeds `r`, so
that `anaIn` reports `2 * RESX - 1`; on any other channel the accumulator is left
as the filter step produced it. -/
theorem C7_mapper_result (c : AdcConfig) (x : Nat) (calib : StepsCalibData) (acc : Nat)
    (hα : 0 < c.JITTER_ALPHA) (hR : 0 < c.RESX) (h16 : 2 * c.RESX ≤ 2 ^ 16)
    (hs : staticCheck c) (hcount : calib.count < 256) (hr : ANA_FILT c acc >>> 4 < 256) :
    ANAFILT_MAX c = 2 * c.RESX * c.JITTER_ALPHA * ANALOG_MULTIPLIER c - 1 ∧
    (if c.IS_POT_MULTIPOS x && c.IS_MULTIPOS_CALIBRATED calib then
      (∀ i, i < calib.count → ANA_FILT c acc >>> 4 < calib.steps i →
        (∀ j, j < i → ¬ ANA_FILT c acc >>> 4 < calib.steps j) →
        multiposMap c x calib acc = (i * ANAFILT_MAX c) / calib.count) ∧
      ((∀ i, i < calib.count → ¬ ANA_FILT c acc >>> 4 < calib.steps i) →
        multiposMap c x calib acc = ANAFILT_MAX c ∧
        ∀ s_anaFilt : Nat → Nat, s_anaFilt x = multiposMap c x calib acc →
          anaIn c s_anaFilt x = 2 * c.RESX - 1)
    else multiposMap c x calib acc = acc) := by
  have hmax := ANAFILT_MAX_lt c hα hR h16 hs
  refine ⟨hmax.1, ?_⟩
  split
  · next hmp =>
    have hsnap : multiposMap c x calib acc = multiposSnap c calib acc := by
      simp [multiposMap, hmp]
    rw [hsnap, multiposSnap_eq]
    have hv := vShifted_eq c acc hr
    constructor
    · intro i hi hlt hleast
      have hidx : stepIndex c calib acc = i := by
        unfold stepIndex
        rw [hv]
        exact multiposIndex_unique calib _ calib.count 0 i (Nat.zero_le _) (by omega) hlt
          (fun j _ hj => hleast j hj)
      rw [hidx, if_pos hi, index_mul_no_wrap c hα hR h16 hs i (by omega)]
    · intro hnone
      have hidx : stepIndex c calib acc = 0 + calib.count := by
        unfold stepIndex
        rw [hv]
        exact multiposIndex_none calib _ calib.count 0 (fun j _ hj => hnone j (by omega))
      have hnot : ¬ stepIndex c calib acc < calib.count := by omega
      rw [if_neg hnot]
      refine ⟨rfl, fun s hsx => ?_⟩
      have hm := ANALOG_MULTIPLIER_pos c
      have hp : 0 < c.JITTER_ALPHA * ANALOG_MULTIPLIER c := Nat.mul_pos hα hm
      have hform : ANAFILT_MAX c = 2 * c.RESX * (c.JITTER_ALPHA * ANALOG_MULTIPLIER c) - 1 := by
        rw [hmax.1, Nat.mul_assoc]
      unfold anaIn ANA_FILT u16
      rw [hsx, hform, pred_mul_div _ _ hp (by omega)]
      exact Nat.mod_eq_of_lt (by omega)
  · next hmp =>
    simp [multiposMap, hmp]

/-- C7 at `cfg4` and `calib3`: the accumulator 8000 reduces to 62, the least
threshold above it is `steps[1] = 100`, and the mapper writes `16383 / 3`. -/
theorem C7_mapper_result_witness :
    multiposMap cfg4 5 calib3 8000 = (1 * ANAFILT_MAX cfg4) / 3 := by
  have h := (C7_mapper_result cfg4 5 calib3 8000 (by decide) (by decide) (by decide)
    (by decide) (by decide) (by decide)).2
  rw [if_pos (by decide)] at h
  exact h.1 1 (by decide) (by decide) (by decide)

/-- C8: calibration monotonicity. For filtered values `a ≤ b < 4096` the step index
chosen for `a` is at most the one chosen for `b` (the index is `count` when no
threshold exceeds the reduced value), and so is the accumulator written; the index
is below `count` whenever some threshold exceeds the reduced value; and with
ascending thresholds every value whose reduction is at or above the last threshold
yields `ANAFILT_MAX`. -/
theorem C8_calibration_monotone (c : AdcConfig) (calib : StepsCalibData) (accA accB : Nat)
    (hα : 0 < c.JITTER_ALPHA) (hR : 0 < c.RESX) (h16 : 2 * c.RESX ≤ 2 ^ 16)
    (hs : staticCheck c) (hcount : calib.count < 256)
    (hasc : ∀ i j, i ≤ j → j < calib.count → calib.steps i ≤ calib.steps j)
    (hab : ANA_FILT c accA ≤ ANA_FILT c accB) (hb : ANA_FILT c accB < 4096) :
    stepIndex c calib accA ≤ stepIndex c calib accB ∧
    multiposSnap c calib accA ≤ multiposSnap c calib accB ∧
    multiposSnap c calib accA =
      (if stepIndex c calib accA < calib.count
        then (stepIndex c calib accA * ANAFILT_MAX c) / calib.count else ANAFILT_MAX c) ∧
    ((∃ i, i < calib.count ∧ ANA_FILT c accA >>> 4 < calib.steps i) →
      stepIndex c calib accA < calib.count) ∧
    (∀ acc, ANA_FILT c acc < 4096 → 0 < calib.count →
      calib.steps (calib.count - 1) ≤ ANA_FILT c acc >>> 4 →
      multiposSnap c calib acc = ANAFILT_MAX c) := by
  have hva := vShifted_eq c accA (shift4_lt _ (by omega))
  have hvb := vShifted_eq c accB (shift4_lt _ hb)
  have hidx : stepIndex c calib accA ≤ stepIndex c calib accB := by
    unfold stepIndex
    rw [hva, hvb]
    exact multiposIndex_mono calib _ _ calib.count (shift4_mono _ _ hab) 0
  have hbb := multiposIndex_bounds calib (vShifted c accB) calib.count 0
  have hba := multiposIndex_bounds calib (vShifted c accA) calib.count 0
  have hwrap : ∀ i, i < calib.count → u32 (i * ANAFILT_MAX c) = i * ANAFILT_MAX c :=
    fun i hi => index_mul_no_wrap c hα hR h16 hs i (by omega)
  refine ⟨hidx, ?_, ?_, ?_, ?_⟩
  · rw [multiposSnap_eq c calib accB]
    split
    · next hB =>
      have hA : stepIndex c calib accA < calib.count := by omega
      rw [multiposSnap_eq c calib accA, if_pos hA, hwrap _ hA, hwrap _ hB]
      exact Nat.div_le_div_right (Nat.mul_le_mul_right _ hidx)
    · exact multiposSnap_le c calib accA
  · rw [multiposSnap_eq c calib accA]
    split
    · next hA => rw [hwrap _ hA]
    · rfl
  · rintro ⟨i, hi, hlt⟩
    by_contra hnot
    have hfull : stepIndex c calib accA = calib.count := by
      unfold stepIndex at hnot ⊢; omega
    have hspec := (multiposIndex_spec calib (vShifted c accA) calib.count 0).1 i
      (Nat.zero_le _) (by unfold stepIndex at hfull; omega)
    rw [hva] at hspec
    exact hspec hlt
  · intro acc hacc hpos hlast
    have hv := vShifted_eq c acc (shift4_lt _ hacc)
    have hnone : stepIndex c calib acc = 0 + calib.count := by
      unfold stepIndex
      rw [hv]
      apply multiposIndex_none
      intro j _ hj
      have := hasc j (calib.count - 1) (by omega) (by omega)
      omega
    rw [multiposSnap_eq, if_neg (by omega)]

/-- C8 at `cfg4` and `calib3`: the accumulators 8000 and 12000 (filtered values 1000
and 1500) are mapped to the step indices 1 and 1. -/
theorem C8_calibration_monotone_witness :
    stepIndex cfg4 calib3 8000 ≤ stepIndex cfg4 calib3 12000 ∧
      multiposSnap cfg4 calib3 8000 ≤ multiposSnap cfg4 calib3 12000 :=
  have h := C8_calibration_monotone cfg4 calib3 8000 12000 (by decide) (by decide) (by decide)
    (by decide) (by decide)
    (by
      intro i j hij hj
      have hj3 : j < 3 := hj
      interval_cases j <;> interval_cases i <;> decide)
    (by decide) (by decide)
  ⟨h.1, h.2.1⟩

/-! ## Claims about registration and the conversion step -/

/-- C9: registration contract of `adcInit`. Whatever backend was active before,
`adcInit driver` returns true exactly when `driver` is non-null and either declares
no init operation or its init operation returns true; the active backend afterwards
is `driver` when it returns true and none when it returns false; and the init
operation is invoked once when `driver` is non-null and declares one, and not at all
otherwise. -/
theorem C9_adcInit_contract {W : Type} (driver : Option (etx_hal_adc_driver_t W))
    (s : HalState W) :
    ((adcInit driver s).1 = true ↔
      ∃ d, driver = some d ∧ (d.init = none ∨ ∃ f, d.init = some f ∧ (f s.hw).1 = true)) ∧
    (adcInit driver s).2._hal_adc_driver = (if (adcInit driver s).1 then driver else none) ∧
    (adcInit driver s).2.calls = s.calls ++
      (match driver with
        | none => []
        | some d => if d.init.isSome then [HalCall.init] else []) := by
  cases driver with
  | none => simp [adcInit]
  | some d =>
    cases hinit : d.init with
    | none => simp [adcInit, hinit]
    | some f =>
      cases hres : (f s.hw).1 <;> simp [adcInit, hinit, hres]

/-- C10: the conversion step `adcSingleRead`. With no active backend it returns false
and leaves the state, hardware and call log included, untouched. With an active
backend whose start operation is declared and returns false it returns false after
the one call of start, the hardware being as start left it, without a call of wait.
Otherwise it returns true, after start (if declared) has run once on the hardware,
followed by exactly one run of wait (if declared) on the hardware as start left it.
So it returns true exactly when a backend is active and its start operation is absent
or succeeds; the active backend is never changed. -/
theorem C10_adcSingleRead_contract {W : Type} (s : HalState W) :
    ((adcSingleRead s).1 = true ↔
      ∃ d, s._hal_adc_driver = some d ∧
        (d.start_conversion = none ∨
          ∃ f, d.start_conversion = some f ∧ (f s.hw).1 = true)) ∧
    (match s._hal_adc_driver with
      | none => adcSingleRead s = (false, s)
      | some d =>
        (adcSingleRead s).2.calls = s.calls ++
          (if d.start_conversion.isSome then [HalCall.start_conversion] else []) ++
          (if (adcSingleRead s).1 && d.wait_completion.isSome
            then [HalCall.wait_completion] else []) ∧
        (adcSingleRead s).2.hw =
          (match d.start_conversion, d.wait_completion with
            | none, none => s.hw
            | none, some w => w s.hw
            | some f, none => (f s.hw).2
            | some f, some w => if (f s.hw).1 then w (f s.hw).2 else (f s.hw).2)) ∧
    (adcSingleRead s).2._hal_adc_driver = s._hal_adc_driver := by
  cases hdrv : s._hal_adc_driver with
  | none => simp [adcSingleRead, hdrv]
  | some d =>
    cases hstart : d.start_conversion with
    | none =>
      cases hwait : d.wait_completion <;> simp [adcSingleRead, hdrv, hstart, hwait]
    | some f =>
      cases hres : (f s.hw).1 <;> cases hwait : d.wait_completion <;>
        simp [adcSingleRead, hdrv, hstart, hwait, hres]

/-! ## Claims about `adcRead`, the filter flag and `getAnalogValue` -/

/-- The return value of `adcRead` does not depend on the conversion step. -/
theorem adcRead_fst {D : Type} (p : PwmSticks) (s : HalState (AdcHw D)) :
    (adcRead p s).1 = true := rfl

/-- Without PWM sticks `adcRead` changes the state of the conversion step only in
the bridge flag. -/
theorem adcRead_noPwm {D : Type} (p : PwmSticks) (s : HalState (AdcHw D))
    (hp : p.NUM_PWMSTICKS = 0) :
    (adcRead p s).2._hal_adc_driver = (adcSingleRead s).2._hal_adc_driver ∧
      (adcRead p s).2.hw.adcValues = (adcSingleRead s).2.hw.adcValues ∧
      (adcRead p s).2.calls = (adcSingleRead s).2.calls := by
  have hno : ¬ (0 < p.NUM_PWMSTICKS ∧ p.STICKS_PWM_ENABLED = true) := by omega
  simp only [adcRead, hno, if_false]
  split <;> simp [disableVBatBridge]

/-- C11: evaluation at the failing input. After `adcInit` with `failingDriver`, whose
init operation returns false, registration reports failure, no backend is active and
the conversion step `adcSingleRead` fails, yet `adcRead` returns true. -/
theorem C11_adcRead_true_after_failed_init :
    (adcInit (some failingDriver) hal0).1 = false ∧
    (adcInit (some failingDriver) hal0).2._hal_adc_driver.isNone = true ∧
    (adcSingleRead (adcInit (some failingDriver) hal0).2).1 = false ∧
    (adcRead noPwm (adcInit (some failingDriver) hal0).2).1 = true := by
  refine ⟨rfl, rfl, rfl, rfl⟩

/-- C12: a failed acquisition keeps the prior values. With no active backend and no
PWM sticks the conversion step fails, and `adcRead` leaves every entry of `adcValues`,
the active-backend reference and the log of backend operations as they were. -/
theorem C12_failed_read_keeps_values {D : Type} (p : PwmSticks) (s : HalState (AdcHw D))
    (hp : p.NUM_PWMSTICKS = 0) (hnone : s._hal_adc_driver = none) :
    (adcSingleRead s).1 = false ∧
    (∀ i, (adcRead p s).2.hw.adcValues i = s.hw.adcValues i) ∧
    (adcRead p s).2._hal_adc_driver = s._hal_adc_driver ∧
    (adcRead p s).2.calls = s.calls := by
  have hsr : adcSingleRead s = (false, s) := by simp [adcSingleRead, hnone]
  obtain ⟨h1, h2, h3⟩ := adcRead_noPwm p s hp
  rw [hsr] at h1 h2 h3
  exact ⟨by rw [hsr], fun i => by rw [h2], h1, h3⟩

/-- C12 at `halNone`: channel 3 still reads 1234 after `adcRead`. -/
theorem C12_failed_read_keeps_values_witness :
    (adcRead noPwm halNone).2.hw.adcValues 3 = 1234 :=
  (C12_failed_read_keeps_values noPwm halNone rfl rfl).2.1 3

/-- C13: the effective jitter-filter flag. With distinct enumerators, the override
`OVERRIDE_GLOBAL` gives the flag on exactly when `noJitterFilter` is false, the
override `OVERRIDE_ON` gives it on and every other override value gives it off,
whatever `noJitterFilter` is; and this flag is the one the channel body passes to
the filter step. -/
theorem C13_effective_filter_flag (c : AdcConfig) (g : Settings) (noJitterFilter : Bool)
    (hne : c.OVERRIDE_ON ≠ c.OVERRIDE_GLOBAL) :
    (useJitterFilter c c.OVERRIDE_GLOBAL noJitterFilter = true ↔ noJitterFilter = false) ∧
    useJitterFilter c c.OVERRIDE_ON noJitterFilter = true ∧
    (∀ j, j ≠ c.OVERRIDE_GLOBAL → j ≠ c.OVERRIDE_ON →
      useJitterFilter c j noJitterFilter = false) ∧
    (∀ adcValues x acc, getADC_channel c g adcValues x acc =
      multiposMap c x (g.calib x)
        (jitterStep c (useJitterFilter c g.jitterFilter g.noJitterFilter) acc
          (normalized c (getAnalogValue c adcValues x)))) := by
  refine ⟨?_, ?_, ?_, fun _ _ _ => rfl⟩
  · cases noJitterFilter <;> simp [useJitterFilter]
  · simp [useJitterFilter, hne]
  · intro j h1 h2
    simp [useJitterFilter, h1, h2]

/-- C13 at `cfg4`: with the override on global and the radio filter enabled the
flag is on. -/
theorem C13_effective_filter_flag_witness :
    useJitterFilter cfg4 cfg4.OVERRIDE_GLOBAL false = true :=
  (C13_effective_filter_flag cfg4 settings0 false (by decide)).1.mpr rfl

/-- C14: the absent-hardware sentinel. For an index that is a pot and is not
available `getAnalogValue` returns 0 for every content of `adcValues`; for every other
index it returns `adcValues[index]` unchanged. -/
theorem C14_absent_pot_sentinel (c : AdcConfig) (adcValues : Nat → Nat) (index : Nat) :
    getAnalogValue c adcValues index =
      (if c.IS_POT index = true ∧ c.IS_POT_SLIDER_AVAILABLE index = false
        then 0 else adcValues index) := by
  unfold getAnalogValue
  cases c.IS_POT index <;> cases c.IS_POT_SLIDER_AVAILABLE index <;> simp

/-! ## Claims about the battery voltage -/

/-- The unreduced battery voltage is monotone in the filtered value and in the trim. -/
theorem vbatUnreduced_mono (b : BattConfig) (hS : 0 < b.BATT_SCALE)
    (hD : 0 < b.BATTERY_DIVIDER) (f f' : Nat) (t t' : Int)
    (hf : f ≤ f') (ht0 : -128 ≤ t) (ht : t ≤ t') :
    b.VOLTAGE_DROP ≤ vbatUnreduced b f t ∧ vbatUnreduced b f t ≤ vbatUnreduced b f' t' := by
  have hf0 : (0 : Int) ≤ (f : Int) := Int.ofNat_nonneg f
  have hff : (f : Int) ≤ (f' : Int) := Int.ofNat_le.mpr hf
  have h128 : (0 : Int) ≤ 128 + t := by omega
  have h128' : (128 : Int) + t ≤ 128 + t' := by omega
  have hfS : (0 : Int) ≤ (f : Int) * b.BATT_SCALE := Int.mul_nonneg hf0 (le_of_lt hS)
  have hfS' : (f : Int) * b.BATT_SCALE ≤ (f' : Int) * b.BATT_SCALE :=
    Int.mul_le_mul_of_nonneg_right hff (le_of_lt hS)
  have hp0 : (0 : Int) ≤ (f : Int) * b.BATT_SCALE * (128 + t) := Int.mul_nonneg hfS h128
  have hpp : (f : Int) * b.BATT_SCALE * (128 + t) ≤ (f' : Int) * b.BATT_SCALE * (128 + t') :=
    Int.mul_le_mul hfS' h128' h128 (le_trans hfS hfS')
  have hp0' : (0 : Int) ≤ (f' : Int) * b.BATT_SCALE * (128 + t') := le_trans hp0 hpp
  unfold vbatUnreduced
  rw [Int.tdiv_eq_ediv hp0 (le_of_lt hD), Int.tdiv_eq_ediv hp0' (le_of_lt hD)]
  have hq0 : (0 : Int) ≤ (f : Int) * b.BATT_SCALE * (128 + t) / b.BATTERY_DIVIDER :=
    Int.ediv_nonneg hp0 (le_of_lt hD)
  have hqq := Int.ediv_le_ediv hD hpp
  constructor <;> omega

/-- Reducing a product of a reduced factor is reducing the product. -/
theorem wrapInt32_mul (a k : Int) : wrapInt32 (wrapInt32 a * k) = wrapInt32 (a * k) := by
  have h : wrapInt32 a = a - (a + 2 ^ 31) / 2 ^ 32 * 2 ^ 32 := by
    unfold wrapInt32; omega
  rw [h]
  unfold wrapInt32
  have e : (a - (a + 2 ^ 31) / 2 ^ 32 * 2 ^ 32) * k + 2 ^ 31
      = (a * k + 2 ^ 31) + (-((a + 2 ^ 31) / 2 ^ 32) * k) * 2 ^ 32 := by ring
  rw [e, Int.add_mul_emod_self]

/-- A value that fits 32 bits is not changed by the reduction. -/
theorem wrapInt32_of_fits (z : Int) (h1 : -2 ^ 31 ≤ z) (h2 : z < 2 ^ 31) : wrapInt32 z = z := by
  unfold wrapInt32; omega

/-- The 32-bit reductions of the quotient and the sum vanish in the 16-bit result. -/
theorem wrapInt32_add_emod (q d : Int) :
    wrapInt32 (wrapInt32 q + d) % 2 ^ 16 = (q + d) % 2 ^ 16 := by
  unfold wrapInt32; omega

/-- For a product that fits 32 bits the battery voltage is the unreduced value
modulo `2^16`. -/
theorem getBatteryVoltage_formula (b : BattConfig) (c : AdcConfig) (s : Nat → Nat) (t : Int)
    (h1 : -2 ^ 31 ≤ ((anaIn c s b.TX_VOLTAGE : Nat) : Int) * b.BATT_SCALE * (128 + t))
    (h2 : ((anaIn c s b.TX_VOLTAGE : Nat) : Int) * b.BATT_SCALE * (128 + t) < 2 ^ 31) :
    getBatteryVoltage b c s t = (vbatUnreduced b (anaIn c s b.TX_VOLTAGE) t % 2 ^ 16).toNat := by
  unfold getBatteryVoltage vbatUnreduced
  simp only
  rw [wrapInt32_mul, wrapInt32_of_fits _ h1 h2, wrapInt32_add_emod]

/-- A battery voltage whose product fits 32 bits and whose unreduced value fits 16
bits is reported unreduced. -/
theorem getBatteryVoltage_eq (b : BattConfig) (c : AdcConfig) (s : Nat → Nat) (t : Int)
    (h1 : -2 ^ 31 ≤ ((anaIn c s b.TX_VOLTAGE : Nat) : Int) * b.BATT_SCALE * (128 + t))
    (h2 : ((anaIn c s b.TX_VOLTAGE : Nat) : Int) * b.BATT_SCALE * (128 + t) < 2 ^ 31)
    (h0 : 0 ≤ vbatUnreduced b (anaIn c s b.TX_VOLTAGE) t)
    (h16 : vbatUnreduced b (anaIn c s b.TX_VOLTAGE) t < 2 ^ 16) :
    (getBatteryVoltage b c s t : Int) = vbatUnreduced b (anaIn c s b.TX_VOLTAGE) t := by
  rw [getBatteryVoltage_formula b c s t h1 h2, Int.emod_eq_of_lt h0 h16,
    Int.toNat_of_nonneg h0]

/-- The product is non-negative and monotone in the filtered value and in the trim. -/
theorem vbat_product_mono (b : BattConfig) (hS : 0 < b.BATT_SCALE) (f f' : Nat) (t t' : Int)
    (hf : f ≤ f') (ht0 : -128 ≤ t) (ht : t ≤ t') :
    0 ≤ (f : Int) * b.BATT_SCALE * (128 + t) ∧
      (f : Int) * b.BATT_SCALE * (128 + t) ≤ (f' : Int) * b.BATT_SCALE * (128 + t') := by
  have hf0 : (0 : Int) ≤ (f : Int) := Int.ofNat_nonneg f
  have hff : (f : Int) ≤ (f' : Int) := Int.ofNat_le.mpr hf
  have h128 : (0 : Int) ≤ 128 + t := by omega
  have h128' : (128 : Int) + t ≤ 128 + t' := by omega
  have hfS : (0 : Int) ≤ (f : Int) * b.BATT_SCALE := Int.mul_nonneg hf0 (le_of_lt hS)
  have hfS' : (f : Int) * b.BATT_SCALE ≤ (f' : Int) * b.BATT_SCALE :=
    Int.mul_le_mul_of_nonneg_right hff (le_of_lt hS)
  exact ⟨Int.mul_nonneg hfS h128, Int.mul_le_mul hfS' h128' h128 (le_trans hfS hfS')⟩

/-- C15 fails as stated: with `BATT_SCALE = 1319`, `BATTERY_DIVIDER = 26214` (both
positive), `VOLTAGE_DROP = -50` and the trim 0, the filtered values 0 and 1000 have
products that fit 32 bits and unreduced results -50 and 6390, both below `2^16`, yet
the reported voltages are 65486 and 6390: the result is not non-decreasing in `f`. -/
theorem C15_negative_drop_not_monotone :
    0 < battNeg.BATT_SCALE ∧ 0 < battNeg.BATTERY_DIVIDER ∧
    anaIn cfg4 (fun _ => 0) battNeg.TX_VOLTAGE = 0 ∧
    anaIn cfg4 (fun _ => 8000) battNeg.TX_VOLTAGE = 1000 ∧
    (0 : Int) * battNeg.BATT_SCALE * (128 + 0) < 2 ^ 31 ∧
    (1000 : Int) * battNeg.BATT_SCALE * (128 + 0) < 2 ^ 31 ∧
    vbatUnreduced battNeg 0 0 = -50 ∧ vbatUnreduced battNeg 1000 0 = 6390 ∧
    getBatteryVoltage battNeg cfg4 (fun _ => 0) 0 = 65486 ∧
    getBatteryVoltage battNeg cfg4 (fun _ => 8000) 0 = 6390 ∧
    ¬ getBatteryVoltage battNeg cfg4 (fun _ => 0) 0 ≤
      getBatteryVoltage battNeg cfg4 (fun _ => 8000) 0 := by
  decide

/-- C15 as amended: battery voltage, `BATT_SCALE` variant, with `f = anaIn(TX_VOLTAGE)`
and `t` the signed 8-bit trim. When the product `f * BATT_SCALE * (128 + t)` fits a
signed 32-bit integer the result is
`(f * BATT_SCALE * (128 + t)) / BATTERY_DIVIDER + VOLTAGE_DROP` reduced modulo `2^16`;
the result is the same for two accumulator arrays with the same `f`; and for positive
`BATT_SCALE` and `BATTERY_DIVIDER` it is non-decreasing in `f` for fixed `t` and in `t`
for fixed `f` whenever the products fit a signed 32-bit integer and the unreduced
results are non-negative and below `2^16`. -/
theorem C15_battery_voltage (b : BattConfig) (c : AdcConfig) (s : Nat → Nat) (t : Int)
    (ht0 : -128 ≤ t) :
    (-2 ^ 31 ≤ ((anaIn c s b.TX_VOLTAGE : Nat) : Int) * b.BATT_SCALE * (128 + t) →
      ((anaIn c s b.TX_VOLTAGE : Nat) : Int) * b.BATT_SCALE * (128 + t) < 2 ^ 31 →
      getBatteryVoltage b c s t =
        ((Int.tdiv (((anaIn c s b.TX_VOLTAGE : Nat) : Int) * b.BATT_SCALE * (128 + t))
            b.BATTERY_DIVIDER + b.VOLTAGE_DROP) % 2 ^ 16).toNat) ∧
    (∀ s' : Nat → Nat, anaIn c s' b.TX_VOLTAGE = anaIn c s b.TX_VOLTAGE →
      getBatteryVoltage b c s' t = getBatteryVoltage b c s t) ∧
    (0 < b.BATT_SCALE → 0 < b.BATTERY_DIVIDER →
      ∀ s' : Nat → Nat, anaIn c s b.TX_VOLTAGE ≤ anaIn c s' b.TX_VOLTAGE →
      ((anaIn c s' b.TX_VOLTAGE : Nat) : Int) * b.BATT_SCALE * (128 + t) < 2 ^ 31 →
      0 ≤ vbatUnreduced b (anaIn c s b.TX_VOLTAGE) t →
      vbatUnreduced b (anaIn c s' b.TX_VOLTAGE) t < 2 ^ 16 →
      getBatteryVoltage b c s t ≤ getBatteryVoltage b c s' t) ∧
    (0 < b.BATT_SCALE → 0 < b.BATTERY_DIVIDER →
      ∀ t' : Int, t ≤ t' → t' ≤ 127 →
      ((anaIn c s b.TX_VOLTAGE : Nat) : Int) * b.BATT_SCALE * (128 + t') < 2 ^ 31 →
      0 ≤ vbatUnreduced b (anaIn c s b.TX_VOLTAGE) t →
      vbatUnreduced b (anaIn c s b.TX_VOLTAGE) t' < 2 ^ 16 →
      getBatteryVoltage b c s t ≤ getBatteryVoltage b c s t') := by
  refine ⟨?_, ?_, ?_, ?_⟩
  · intro hlo hfit
    exact getBatteryVoltage_formula b c s t hlo hfit
  · intro s' h
    unfold getBatteryVoltage
    rw [h]
  · intro hS hD s' hle hfit h0 h16
    obtain ⟨p0, pp⟩ := vbat_product_mono b hS _ _ t t hle ht0 (le_refl t)
    obtain ⟨_, a2⟩ := vbatUnreduced_mono b hS hD _ _ t t hle ht0 (le_refl t)
    have e1 := getBatteryVoltage_eq b c s t (by omega) (by omega) h0 (by omega)
    have e2 := getBatteryVoltage_eq b c s' t (by omega) hfit (by omega) h16
    omega
  · intro hS hD t' htt _ hfit h0 h16
    obtain ⟨p0, pp⟩ := vbat_product_mono b hS _ _ t t'
      (le_refl (anaIn c s b.TX_VOLTAGE)) ht0 htt
    obtain ⟨_, a2⟩ := vbatUnreduced_mono b hS hD _ _ t t'
      (le_refl (anaIn c s b.TX_VOLTAGE)) ht0 htt
    have e1 := getBatteryVoltage_eq b c s t (by omega) (by omega) h0 (by omega)
    have e2 := getBatteryVoltage_eq b c s t' (by omega) hfit (by omega) h16
    omega

/-- C15 as amended at `batt0` and `cfg4`: the filtered values 1000 and 1500 with the
trim 0 give `1000 * 1319 * 128 / 26214 + 20 = 6460` and a voltage that is not
smaller. -/
theorem C15_battery_voltage_witness :
    getBatteryVoltage batt0 cfg4 (fun _ => 8000) 0 = 6460 ∧
      getBatteryVoltage batt0 cfg4 (fun _ => 8000) 0 ≤
        getBatteryVoltage batt0 cfg4 (fun _ => 12000) 0 :=
  have h := C15_battery_voltage batt0 cfg4 (fun _ => 8000) 0 (by decide)
  ⟨(h.1 (by decide) (by decide)).trans (by decide),
   h.2.2.1 (by decide) (by decide) (fun _ => 12000) (by decide) (by decide) (by decide)
    (by decide)⟩

/-! ## Further claims about the jitter filter -/

/-- C16: no overshoot. With `prev = acc / JITTER_ALPHA`, the filtered value after one
step lies between `min prev v` and `max prev v`, for either flag, every accumulator
and every 16-bit reading. -/
theorem C16_no_overshoot (c : AdcConfig) (flag : Bool) (acc v : Nat)
    (hα : 0 < c.JITTER_ALPHA) (hs : staticCheck c) (hv : v < 2 ^ 16) :
    min (acc / c.JITTER_ALPHA) v ≤ filtered c (jitterStep c flag acc v) ∧
      filtered c (jitterStep c flag acc v) ≤ max (acc / c.JITTER_ALPHA) v :=
  jitterStep_between c flag acc v _ _ hα hs hv (Nat.min_le_left _ _) (Nat.min_le_right _ _)
    (Nat.le_max_left _ _) (Nat.le_max_right _ _)

/-- C16 at `cfg4`: from the accumulator 4000 (filtered 1000) the reading 1010 gives a
filtered value within 1000..1010. -/
theorem C16_no_overshoot_witness :
    min (4000 / cfg4.JITTER_ALPHA) 1010 ≤ filtered cfg4 (jitterStep cfg4 true 4000 1010) ∧
      filtered cfg4 (jitterStep cfg4 true 4000 1010) ≤ max (4000 / cfg4.JITTER_ALPHA) 1010 :=
  C16_no_overshoot cfg4 true 4000 1010 (by decide) (by decide) (by decide)

/-- The gap of an accumulator is at most `a` times the distance of its quotient
from `v`. -/
theorem gap_le_mul_diff (a x v : Nat) (ha : 0 < a) :
    (a * v - x) + (x - (a * v + a - 1)) ≤
      a * (if v > x / a then v - x / a else x / a - v) := by
  have e1 : a * (x / a) ≤ x := Nat.mul_div_le x a
  have e2 : x < a * (x / a + 1) := Nat.lt_mul_div_succ x ha
  generalize x / a = p at *
  have r2 : a * (p + 1) = a * p + a := by ring
  split
  · next h =>
    have : a * (v - p) = a * v - a * p := Nat.mul_sub a v p
    have : a * p ≤ a * v := Nat.mul_le_mul_left _ (by omega)
    have : a * (p + 1) ≤ a * v := Nat.mul_le_mul_left _ (by omega)
    omega
  · next h =>
    have : a * (p - v) = a * p - a * v := Nat.mul_sub a p v
    have : a * v ≤ a * p := Nat.mul_le_mul_left _ (by omega)
    omega

/-- A smoothing update shrinks a positive gap by at least one. -/
theorem gap_step_smooth (a x v : Nat) (ha : 0 < a) :
    (a * v - (x - x / a + v)) + ((x - x / a + v) - (a * v + a - 1)) ≤
      (a * v - x) + (x - (a * v + a - 1)) - 1 := by
  obtain ⟨b1, b2⟩ := mma_bounds a x v (min (x / a) v) (max (x / a) v) ha
    (Nat.min_le_left _ _) (Nat.min_le_right _ _) (Nat.le_max_left _ _) (Nat.le_max_right _ _)
  rw [Nat.le_div_iff_mul_le ha] at b1
  rw [← Nat.lt_add_one_iff, Nat.div_lt_iff_lt_mul ha] at b2
  have e1 : a * (x / a) ≤ x := Nat.mul_div_le x a
  have e2 : x < a * (x / a + 1) := Nat.lt_mul_div_succ x ha
  have hpx : x / a ≤ x := Nat.div_le_self x a
  generalize x / a = p at *
  have r2 : a * (p + 1) = a * p + a := by ring
  rcases Nat.lt_trichotomy p v with h | h | h
  · have hmax : max p v = v := Nat.max_eq_right (by omega)
    rw [hmax] at b2
    have r1 : (v + 1) * a = a * v + a := by ring
    have : a * (p + 1) ≤ a * v := Nat.mul_le_mul_left _ (by omega)
    omega
  · subst h
    omega
  · have hmin : min p v = v := Nat.min_eq_right (by omega)
    rw [hmin] at b1
    have r1 : v * a = a * v := by ring
    have : a * (v + 1) ≤ a * p := Nat.mul_le_mul_left _ (by omega)
    have r3 : a * (v + 1) = a * v + a := by ring
    omega

/-- The gap is zero exactly when the quotient is `v`. -/
theorem gap_zero_iff (a x v : Nat) (ha : 0 < a) :
    (a * v - x) + (x - (a * v + a - 1)) = 0 ↔ x / a = v := by
  constructor
  · intro h
    apply Nat.div_eq_of_lt_le
    · rw [Nat.mul_comm]; omega
    · have : (v + 1) * a = a * v + a := by ring
      omega
  · intro h
    have e1 : a * (x / a) ≤ x := Nat.mul_div_le x a
    have e2 : x < a * (x / a + 1) := Nat.lt_mul_div_succ x ha
    rw [h] at e1 e2
    have : a * (v + 1) = a * v + a := by ring
    omega

/-- The drift gap is zero exactly when the channel reports `v`. -/
theorem driftGap_zero_iff (c : AdcConfig) (hα : 0 < c.JITTER_ALPHA) (v acc : Nat) :
    driftGap c v acc = 0 ↔ filtered c acc = v :=
  gap_zero_iff c.JITTER_ALPHA acc v hα

/-- One filter step on the reading `v` shrinks the drift gap by at least one, and
leaves it below `JITTER_ALPHA * (10 * ANALOG_MULTIPLIER)`. -/
theorem driftGap_step (c : AdcConfig) (hα : 0 < c.JITTER_ALPHA) (hs : staticCheck c)
    (acc v : Nat) (hv : v < 2 ^ 16) :
    driftGap c v (jitterStep c true acc v) ≤ driftGap c v acc - 1 ∧
      driftGap c v (jitterStep c true acc v) ≤
        c.JITTER_ALPHA * (10 * ANALOG_MULTIPLIER c) - 1 := by
  by_cases hd : diff c acc v < 10 * ANALOG_MULTIPLIER c
  · rw [jitterStep_smooth c acc v hα hs hv hd]
    have h1 : driftGap c v (acc - acc / c.JITTER_ALPHA + v) ≤ driftGap c v acc - 1 :=
      gap_step_smooth c.JITTER_ALPHA acc v hα
    have h2 : driftGap c v acc ≤ c.JITTER_ALPHA * diff c acc v :=
      gap_le_mul_diff c.JITTER_ALPHA acc v hα
    have h3 : c.JITTER_ALPHA * diff c acc v ≤ c.JITTER_ALPHA * (10 * ANALOG_MULTIPLIER c) :=
      Nat.mul_le_mul_left _ (le_of_lt hd)
    exact ⟨h1, by omega⟩
  · rw [jitterStep_snap c true acc v hs hv (fun h => hd h.2)]
    have e : driftGap c v (v * c.JITTER_ALPHA) = 0 := by
      rw [driftGap_zero_iff c hα]
      simpa [filtered] using Nat.mul_div_cancel v hα
    rw [e]
    exact ⟨Nat.zero_le _, Nat.zero_le _⟩

/-- Over `n` cycles on the reading `v` the drift gap shrinks by at least `n`. -/
theorem driftGap_run (c : AdcConfig) (hα : 0 < c.JITTER_ALPHA) (hs : staticCheck c)
    (v : Nat) (hv : v < 2 ^ 16) (n : Nat) :
    ∀ acc, driftGap c v (jitterRun c true acc (List.replicate n v)) ≤ driftGap c v acc - n := by
  induction n with
  | zero => intro acc; simp [jitterRun]
  | succ k ih =>
    intro acc
    have hrun : jitterRun c true acc (List.replicate (k + 1) v)
        = jitterRun c true (jitterStep c true acc v) (List.replicate k v) := by
      simp [jitterRun, List.replicate_succ]
    rw [hrun]
    have h1 := ih (jitterStep c true acc v)
    have h2 := (driftGap_step c hα hs acc v hv).1
    omega

/-- C17: small drift is not lost. With the filter enabled, from every initial
accumulator and for every 16-bit reading `v` held constant, the reported filtered
value equals `v` after every number `n` of cycles that is at least
`10 * ANALOG_MULTIPLIER * JITTER_ALPHA`. -/
theorem C17_constant_input_converges (c : AdcConfig) (acc v n : Nat)
    (hα : 0 < c.JITTER_ALPHA) (hs : staticCheck c) (hv : v < 2 ^ 16)
    (hn : 10 * ANALOG_MULTIPLIER c * c.JITTER_ALPHA ≤ n) :
    filtered c (jitterRun c true acc (List.replicate n v)) = v := by
  have hm := ANALOG_MULTIPLIER_pos c
  have hpos : 0 < 10 * ANALOG_MULTIPLIER c * c.JITTER_ALPHA := by positivity
  obtain ⟨k, rfl⟩ : ∃ k, n = k + 1 := ⟨n - 1, by omega⟩
  have hrun : jitterRun c true acc (List.replicate (k + 1) v)
      = jitterRun c true (jitterStep c true acc v) (List.replicate k v) := by
    simp [jitterRun, List.replicate_succ]
  rw [hrun, ← driftGap_zero_iff c hα]
  have h1 := driftGap_run c hα hs v hv k (jitterStep c true acc v)
  have h2 := (driftGap_step c hα hs acc v hv).2
  have e : c.JITTER_ALPHA * (10 * ANALOG_MULTIPLIER c)
      = 10 * ANALOG_MULTIPLIER c * c.JITTER_ALPHA := Nat.mul_comm _ _
  omega

/-- C17 at `cfg4`: from the accumulator 4000 the constant reading 1003 is reported
after 80 cycles. -/
theorem C17_constant_input_converges_witness :
    filtered cfg4 (jitterRun cfg4 true 4000 (List.replicate 80 1003)) = 1003 :=
  C17_constant_input_converges cfg4 4000 1003 80 (by decide) (by decide) (by decide)
    (by decide)

/-! ## Claims about the mapper in the cycle -/

/-- A cycle whose filter step takes the snap branch writes the mapper's value for
`v * JITTER_ALPHA`, whatever the accumulator was. -/
theorem getADC_channel_snap (c : AdcConfig) (g : Settings) (adcValues : Nat → Nat)
    (x acc : Nat)
    (h : useJitterFilter c g.jitterFilter g.noJitterFilter = false ∨
      10 * ANALOG_MULTIPLIER c ≤ diff c acc (normalized c (getAnalogValue c adcValues x))) :
    getADC_channel c g adcValues x acc =
      multiposMap c x (g.calib x)
        (u32 (normalized c (getAnalogValue c adcValues x) * c.JITTER_ALPHA)) := by
  have hcond : (useJitterFilter c g.jitterFilter g.noJitterFilter &&
      decide (diff c acc (normalized c (getAnalogValue c adcValues x))
        < 10 * ANALOG_MULTIPLIER c)) = false := by
    rcases h with h | h
    · simp [h]
    · have : ¬ diff c acc (normalized c (getAnalogValue c adcValues x))
          < 10 * ANALOG_MULTIPLIER c := by omega
      simp [this]
  simp only [getADC_channel, jitterStep, hcond]
  rfl

/-- C18 fails as stated: on channel 5 of `cfg4`, a calibrated multipos channel with
the strictly ascending thresholds 43, 100, 120 and the filter enabled, the constant
12-bit raw value 1380 makes the accumulator alternate between 5461 and 0 from the
initial accumulator 0, so the accumulator after the second cycle differs from the one
after the first. -/
theorem C18_multipos_alternates :
    cfg4.IS_POT_MULTIPOS 5 = true ∧ cfg4.IS_MULTIPOS_CALIBRATED calibGlitch = true ∧
    (∀ j, j < calibGlitch.count → ∀ i, i < j → calibGlitch.steps i < calibGlitch.steps j) ∧
    useJitterFilter cfg4 settingsGlitch.jitterFilter settingsGlitch.noJitterFilter = true ∧
    getAnalogValue cfg4 (fun _ => 1380) 5 = 1380 ∧
    getADC_channel_iter cfg4 settingsGlitch (fun _ => 1380) 5 1 0 = 5461 ∧
    getADC_channel_iter cfg4 settingsGlitch (fun _ => 1380) 5 2 0 = 0 ∧
    getADC_channel_iter cfg4 settingsGlitch (fun _ => 1380) 5 3 0 = 5461 ∧
    getADC_channel_iter cfg4 settingsGlitch (fun _ => 1380) 5 4 0 = 0 ∧
    ¬ (∀ n, 1 ≤ n →
      getADC_channel_iter cfg4 settingsGlitch (fun _ => 1380) 5 (n + 1) 0 =
        getADC_channel_iter cfg4 settingsGlitch (fun _ => 1380) 5 n 0) := by
  refine ⟨by decide, by decide, by decide, by decide, by decide, by decide, by decide,
    by decide, by decide, fun h => ?_⟩
  have h1 := h 1 (Nat.le_refl 1)
  revert h1
  decide

/-- The step index of an accumulator within the headroom, from its filtered value. -/
theorem stepIndex_of_filtered (c : AdcConfig) (calib : StepsCalibData) (acc : Nat)
    (hscale : c.ANALOG_SCALE ≤ 1) (hacc : acc / c.JITTER_ALPHA ≤ fullScale c) :
    stepIndex c calib acc =
      multiposIndex calib ((acc / c.JITTER_ALPHA / ANALOG_MULTIPLIER c) >>> 4)
        calib.count 0 := by
  have e : ANA_FILT c acc = acc / c.JITTER_ALPHA / ANALOG_MULTIPLIER c := by
    unfold ANA_FILT; rw [Nat.div_div_eq_div_mul]
  have hle : ANA_FILT c acc ≤ 2047 := by
    rw [e]
    rcases scale_cases c hscale with ⟨hm, hf⟩ | ⟨hm, hf⟩
    · rw [hm, Nat.div_one]; omega
    · rw [hm]; omega
  unfold stepIndex
  rw [vShifted_eq c acc (shift4_lt _ (by omega)), e]

/-- The step index is monotone in the filtered value. -/
theorem stepOfFiltered_mono (c : AdcConfig) (calib : StepsCalibData) (t1 t2 : Nat)
    (h : t1 ≤ t2) :
    multiposIndex calib ((t1 / ANALOG_MULTIPLIER c) >>> 4) calib.count 0 ≤
      multiposIndex calib ((t2 / ANALOG_MULTIPLIER c) >>> 4) calib.count 0 :=
  multiposIndex_mono calib _ _ calib.count (shift4_mono _ _ (Nat.div_le_div_right h)) 0

/-- When the accumulator and the reading lie in the same step, so does the
accumulator after the filter step, in either branch. -/
theorem stepIndex_same_step (c : AdcConfig) (calib : StepsCalibData) (flag : Bool)
    (acc v : Nat) (hα : 0 < c.JITTER_ALPHA) (hscale : c.ANALOG_SCALE ≤ 1)
    (hs : staticCheck c) (hacc : acc / c.JITTER_ALPHA ≤ fullScale c) (hv : v ≤ fullScale c)
    (hsame : stepIndex c calib acc = stepIndex c calib (v * c.JITTER_ALPHA)) :
    stepIndex c calib (jitterStep c flag acc v) = stepIndex c calib (v * c.JITTER_ALPHA) := by
  have hf := fullScale_le c
  have hvα : v * c.JITTER_ALPHA / c.JITTER_ALPHA = v := Nat.mul_div_cancel v hα
  have hF := jitterStep_headroom c hα hs flag acc v hacc hv
  obtain ⟨b1, b2⟩ := jitterStep_between c flag acc v (min (acc / c.JITTER_ALPHA) v)
    (max (acc / c.JITTER_ALPHA) v) hα hs (by omega) (Nat.min_le_left _ _)
    (Nat.min_le_right _ _) (Nat.le_max_left _ _) (Nat.le_max_right _ _)
  rw [stepIndex_of_filtered c calib acc hscale hacc,
    stepIndex_of_filtered c calib (v * c.JITTER_ALPHA) hscale (by rw [hvα]; exact hv),
    hvα] at hsame
  rw [stepIndex_of_filtered c calib _ hscale hF,
    stepIndex_of_filtered c calib (v * c.JITTER_ALPHA) hscale (by rw [hvα]; exact hv), hvα]
  have m1 := stepOfFiltered_mono c calib _ _ b1
  have m2 := stepOfFiltered_mono c calib _ _ b2
  unfold filtered at m1 m2
  rcases Nat.le_total (acc / c.JITTER_ALPHA) v with h | h
  · rw [Nat.min_eq_left h, hsame] at m1
    rw [Nat.max_eq_right h] at m2
    exact Nat.le_antisymm m2 m1
  · rw [Nat.min_eq_right h] at m1
    rw [Nat.max_eq_left h, hsame] at m2
    exact Nat.le_antisymm m2 m1

/-- Accumulators in the same step are mapped to the same value. -/
theorem multiposSnap_congr (c : AdcConfig) (calib : StepsCalibData) (a b : Nat)
    (h : stepIndex c calib a = stepIndex c calib b) :
    multiposSnap c calib a = multiposSnap c calib b := by
  rw [multiposSnap_eq c calib a, multiposSnap_eq c calib b, h]

/-- On a calibrated multipos channel, a cycle from an accumulator that lies in the
step of the reading writes the mapper's value for the reading, whether the filter
smooths or snaps. -/
theorem getADC_channel_same_step (c : AdcConfig) (g : Settings) (adcValues : Nat → Nat)
    (x acc : Nat) (hα : 0 < c.JITTER_ALPHA) (hscale : c.ANALOG_SCALE ≤ 1)
    (hs : staticCheck c)
    (hmp : (c.IS_POT_MULTIPOS x && c.IS_MULTIPOS_CALIBRATED (g.calib x)) = true)
    (hraw : getAnalogValue c adcValues x ≤ 4095)
    (hacc : acc / c.JITTER_ALPHA ≤ fullScale c)
    (hsame : stepIndex c (g.calib x) acc =
      stepIndex c (g.calib x) (normalized c (getAnalogValue c adcValues x) * c.JITTER_ALPHA)) :
    getADC_channel c g adcValues x acc =
      multiposSnap c (g.calib x)
        (normalized c (getAnalogValue c adcValues x) * c.JITTER_ALPHA) := by
  have hv := normalized_le c _ hraw
  have h := stepIndex_same_step c (g.calib x)
    (useJitterFilter c g.jitterFilter g.noJitterFilter) acc _ hα hscale hs hacc hv hsame
  simp only [getADC_channel, multiposMap, hmp, if_true]
  exact multiposSnap_congr c (g.calib x) _ _ h

/-- On a calibrated multipos channel, a cycle writes the mapper's value for the
reading when the accumulator lies in the step of the reading or the filter step
takes the snap branch. -/
theorem getADC_channel_settles (c : AdcConfig) (g : Settings) (adcValues : Nat → Nat)
    (x acc : Nat) (hα : 0 < c.JITTER_ALPHA) (hscale : c.ANALOG_SCALE ≤ 1)
    (hs : staticCheck c)
    (hmp : (c.IS_POT_MULTIPOS x && c.IS_MULTIPOS_CALIBRATED (g.calib x)) = true)
    (hraw : getAnalogValue c adcValues x ≤ 4095)
    (h : (acc / c.JITTER_ALPHA ≤ fullScale c ∧
        stepIndex c (g.calib x) acc =
          stepIndex c (g.calib x)
            (normalized c (getAnalogValue c adcValues x) * c.JITTER_ALPHA)) ∨
      useJitterFilter c g.jitterFilter g.noJitterFilter = false ∨
      10 * ANALOG_MULTIPLIER c ≤ diff c acc (normalized c (getAnalogValue c adcValues x))) :
    getADC_channel c g adcValues x acc =
      multiposSnap c (g.calib x)
        (normalized c (getAnalogValue c adcValues x) * c.JITTER_ALPHA) := by
  have hv := normalized_le c _ hraw
  have hf := fullScale_le c
  rcases h with ⟨hroom, hsame⟩ | hsnap
  · exact getADC_channel_same_step c g adcValues x acc hα hscale hs hmp hraw hroom hsame
  · rw [getADC_channel_snap c g adcValues x acc hsnap]
    have hw : u32 (normalized c (getAnalogValue c adcValues x) * c.JITTER_ALPHA)
        = normalized c (getAnalogValue c adcValues x) * c.JITTER_ALPHA :=
      Nat.mod_eq_of_lt (snap_no_wrap c hs _ (by omega))
    rw [hw]
    simp [multiposMap, hmp]

/-- C18 as amended: on a calibrated multipos channel fed the same 12-bit raw value on
every cycle, with the filter enabled or disabled, let `S` be the value the mapper
writes for the reading itself. Suppose `S` lies in the step of the reading (the mapper
maps `S` to the step it maps the reading to) or the cycle from `S` takes the snap
branch. Then from every initial accumulator that lies in the step of the reading, or
from which the first cycle takes the snap branch, the accumulator after every cycle is
`S`, whether the cycles smooth or snap; so the accumulator after each cycle from the
second on equals the accumulator after the preceding cycle. -/
theorem C18_stable_in_own_step (c : AdcConfig) (g : Settings) (adcValues : Nat → Nat)
    (x acc0 n : Nat)
    (hα : 0 < c.JITTER_ALPHA) (hscale : c.ANALOG_SCALE ≤ 1) (hs : staticCheck c)
    (hR : c.RESX = 1024)
    (hmp : (c.IS_POT_MULTIPOS x && c.IS_MULTIPOS_CALIBRATED (g.calib x)) = true)
    (hraw : getAnalogValue c adcValues x ≤ 4095)
    (hfix :
      stepIndex c (g.calib x)
          (multiposSnap c (g.calib x)
            (normalized c (getAnalogValue c adcValues x) * c.JITTER_ALPHA)) =
        stepIndex c (g.calib x)
          (normalized c (getAnalogValue c adcValues x) * c.JITTER_ALPHA) ∨
      useJitterFilter c g.jitterFilter g.noJitterFilter = false ∨
      10 * ANALOG_MULTIPLIER c ≤
        diff c (multiposSnap c (g.calib x)
            (normalized c (getAnalogValue c adcValues x) * c.JITTER_ALPHA))
          (normalized c (getAnalogValue c adcValues x)))
    (hstart :
      (acc0 / c.JITTER_ALPHA ≤ 4095 >>> (1 - c.ANALOG_SCALE) ∧
        stepIndex c (g.calib x) acc0 =
          stepIndex c (g.calib x)
            (normalized c (getAnalogValue c adcValues x) * c.JITTER_ALPHA)) ∨
      useJitterFilter c g.jitterFilter g.noJitterFilter = false ∨
      10 * ANALOG_MULTIPLIER c ≤ diff c acc0 (normalized c (getAnalogValue c adcValues x))) :
    getADC_channel_iter c g adcValues x (n + 1) acc0 =
      multiposSnap c (g.calib x)
        (normalized c (getAnalogValue c adcValues x) * c.JITTER_ALPHA) ∧
    getADC_channel_iter c g adcValues x (n + 2) acc0 =
      getADC_channel_iter c g adcValues x (n + 1) acc0 := by
  have hv := normalized_le c _ hraw
  have hvα : normalized c (getAnalogValue c adcValues x) * c.JITTER_ALPHA / c.JITTER_ALPHA
      = normalized c (getAnalogValue c adcValues x) := Nat.mul_div_cancel _ hα
  have hSroom : multiposSnap c (g.calib x)
      (normalized c (getAnalogValue c adcValues x) * c.JITTER_ALPHA) / c.JITTER_ALPHA
        ≤ fullScale c := by
    have h := multiposMap_headroom c hα hscale hR x (g.calib x)
      (normalized c (getAnalogValue c adcValues x) * c.JITTER_ALPHA) (by rw [hvα]; exact hv)
    simpa [multiposMap, hmp] using h
  have hS : getADC_channel c g adcValues x
      (multiposSnap c (g.calib x)
        (normalized c (getAnalogValue c adcValues x) * c.JITTER_ALPHA)) =
      multiposSnap c (g.calib x)
        (normalized c (getAnalogValue c adcValues x) * c.JITTER_ALPHA) :=
    getADC_channel_settles c g adcValues x _ hα hscale hs hmp hraw
      (hfix.elim (fun h => Or.inl ⟨hSroom, h⟩) Or.inr)
  have hall : ∀ k, getADC_channel_iter c g adcValues x (k + 1) acc0 =
      multiposSnap c (g.calib x)
        (normalized c (getAnalogValue c adcValues x) * c.JITTER_ALPHA) := by
    intro k
    induction k with
    | zero =>
      simpa [getADC_channel_iter] using
        getADC_channel_settles c g adcValues x acc0 hα hscale hs hmp hraw hstart
    | succ m ih =>
      have e : getADC_channel_iter c g adcValues x (m + 1 + 1) acc0 =
          getADC_channel c g adcValues x (getADC_channel_iter c g adcValues x (m + 1) acc0) :=
        rfl
      rw [e, ih]
      exact hS
  exact ⟨hall n, by rw [hall (n + 1), hall n]⟩

/-- C18 as amended at `cfg4` with the profile 21, 64, 106 and the raw value 1380: the
reading and the value 5461 written for it both reduce into step 1, and from the
accumulator 5480, which lies in step 1 and from which the filter smooths (as it does
from 5461), the accumulator is 5461 after the first and after the second cycle. -/
theorem C18_stable_in_own_step_witness :
    diff cfg4 5480 1380 < 10 * ANALOG_MULTIPLIER cfg4 ∧
    diff cfg4 5461 1380 < 10 * ANALOG_MULTIPLIER cfg4 ∧
    getADC_channel_iter cfg4 settingsMid (fun _ => 1380) 5 1 5480 = 5461 ∧
    getADC_channel_iter cfg4 settingsMid (fun _ => 1380) 5 2 5480 =
      getADC_channel_iter cfg4 settingsMid (fun _ => 1380) 5 1 5480 :=
  have h := C18_stable_in_own_step cfg4 settingsMid (fun _ => 1380) 5 5480 0
    (by decide) (by decide) (by decide) rfl (by decide) (by decide) (Or.inl (by decide))
    (Or.inl ⟨by decide, by decide⟩)
  ⟨by decide, by decide, h.1.trans (by decide), h.2⟩

/-- The checked loop never fails when it is entered with `i + n = count`, and it
computes what the loop computes. -/
theorem multiposLoopChecked_eq (c : AdcConfig) (calib : StepsCalibData) (r acc n : Nat) :
    ∀ i, i + n = calib.count →
      multiposLoopChecked c calib r n i acc = some (multiposLoop c calib r n i acc) := by
  induction n with
  | zero => intro i _; rfl
  | succ k ih =>
    intro i hi
    unfold multiposLoopChecked multiposLoop
    by_cases h : r < calib.steps i
    · have hc : calib.count ≠ 0 := by omega
      simp [h, hc]
    · simp only [h, if_false]
      exact ih (i + 1) (by omega)

/-- C19: the mapper is total and its narrowing is lossless. The division by
`calib->count` is evaluated only inside the loop, so the checked mapper always returns
the mapper's value, and a profile with `count = 0` yields `ANAFILT_MAX`; and for
`ANALOG_SCALE` 0 or 1, a 12-bit raw reading and an accumulator with
`accumulator / JITTER_ALPHA ≤ 4095 >> (1 - ANALOG_SCALE)`, the filtered value
`ANA_FILT` after the filter step is at most 2047, so `vShifted` equals
`ANA_FILT >> 4` and is at most 127. -/
theorem C19_mapper_total_lossless (c : AdcConfig) (flag : Bool) (acc0 raw : Nat)
    (hα : 0 < c.JITTER_ALPHA) (hscale : c.ANALOG_SCALE ≤ 1) (hs : staticCheck c)
    (hraw : raw ≤ 4095) (hacc : acc0 / c.JITTER_ALPHA ≤ 4095 >>> (1 - c.ANALOG_SCALE)) :
    (∀ (calib : StepsCalibData) (acc : Nat),
      multiposLoopChecked c calib (vShifted c acc) calib.count 0 (ANAFILT_MAX c) =
        some (multiposSnap c calib acc)) ∧
    (∀ (calib : StepsCalibData) (acc : Nat), calib.count = 0 →
      multiposSnap c calib acc = ANAFILT_MAX c) ∧
    ANA_FILT c (jitterStep c flag acc0 (normalized c raw)) ≤ 2047 ∧
    vShifted c (jitterStep c flag acc0 (normalized c raw)) =
      ANA_FILT c (jitterStep c flag acc0 (normalized c raw)) >>> 4 ∧
    vShifted c (jitterStep c flag acc0 (normalized c raw)) ≤ 127 := by
  have hfilt : ANA_FILT c (jitterStep c flag acc0 (normalized c raw)) ≤ 2047 := by
    have h1 := jitterStep_headroom c hα hs flag acc0 (normalized c raw) hacc
      (normalized_le c raw hraw)
    unfold ANA_FILT
    rw [← Nat.div_div_eq_div_mul]
    rcases scale_cases c hscale with ⟨hm, hf⟩ | ⟨hm, hf⟩
    · rw [hm, Nat.div_one]; omega
    · rw [hm]; omega
  have hshift : ANA_FILT c (jitterStep c flag acc0 (normalized c raw)) >>> 4 ≤ 127 := by
    rw [Nat.shiftRight_eq_div_pow]; omega
  have hv := vShifted_eq c (jitterStep c flag acc0 (normalized c raw)) (by omega)
  refine ⟨fun calib acc => ?_, fun calib acc h0 => ?_, hfilt, hv, by omega⟩
  · exact multiposLoopChecked_eq c calib _ _ calib.count 0 (by omega)
  · simp [multiposSnap, h0, multiposLoop]

/-- C19 at `cfg4`: from the accumulator 16000 the raw value 4095 leaves a filtered
value of at most 2047. -/
theorem C19_mapper_total_lossless_witness :
    ANA_FILT cfg4 (jitterStep cfg4 true 16000 (normalized cfg4 4095)) ≤ 2047 :=
  (C19_mapper_total_lossless cfg4 true 16000 4095 (by decide) (by decide) (by decide)
    (by decide) (by decide)).2.2.1

end AdcDriver
